import Mathlib

/-!
Verification of the price-floors module (modules/priceFloors.js).

Embedding conventions:
* JS strings are lists of characters (JsStr); string literals are written
  via jsStr.
* JS numbers are rationals.  NaN and undefined are modelled by Option: none
  stands for NaN (respectively undefined) at the places where the source can
  produce them; comparisons against none are false, as in JS.
* The rule delimiter is a single character, following the data model of the
  module (the source default is the one-character string "|").
* External collaborators (field resolvers, currency conversion, bidder cpm
  adjustment, the random source, timers) are parameters of the embedded
  functions, so every theorem quantifies over their behaviour.
* JS Array.prototype.sort is stable (ES2019); with the comparator
  (a, b) => key a - key b it computes exactly a stable sort by key, which is
  embedded below as an insertion sort that keeps equal keys in input order.
-/

namespace PriceFloors

/-- Type of JS strings: a list of characters. -/
abbrev JsStr := List Char

/-- Coercion from Lean string literals to the JS string model. -/
def jsStr (s : String) : JsStr := s.toList

/-- Wildcard segment, the one-character string of the source. -/
def wild : JsStr := jsStr "*"

/-- Lower-casing of a JS string (charwise, as toLowerCase on the
ASCII values used by the module). -/
def jsToLower (s : JsStr) : JsStr := s.map Char.toLower

/-- Upper-casing of a JS string (charwise toUpperCase). -/
def jsToUpper (s : JsStr) : JsStr := s.map Char.toUpper

/-- Splitting a JS string on a one-character delimiter; mirrors
String.prototype.split, which yields one (possibly empty) segment more than
the number of delimiter occurrences. -/
def splitCh (d : Char) : JsStr → List JsStr
  | [] => [[]]
  | c :: cs =>
    if c = d then [] :: splitCh d cs
    else
      match splitCh d cs with
      | s :: ss => (c :: s) :: ss
      | [] => [[c]]

/-- Joining segments with a one-character delimiter; mirrors
Array.prototype.join. -/
def joinD (d : Char) : List JsStr → JsStr
  | [] => []
  | [x] => x
  | x :: y :: xs => x ++ d :: joinD d (y :: xs)

/-- Number of wildcard characters of a key.  The source comparator
(left, right) => left.split(star).length - right.split(star).length orders
keys by exactly this quantity. -/
def starsKey (s : JsStr) : Nat := s.count '*'

/-- Lookup in a JS object viewed as an association list of string keys
(property order is insertion order, as for JS string keys). -/
def jsLookup (values : List (JsStr × α)) (k : JsStr) : Option α :=
  (values.find? (fun kv => kv.1 = k)).map (·.2)

/-- Property write obj[k] = v: replaces the value in place when the key is
present, otherwise appends the new key. -/
def jsSet (values : List (JsStr × α)) (k : JsStr) (v : α) : List (JsStr × α) :=
  if (values.find? (fun kv => kv.1 = k)).isSome then
    values.map (fun kv => if kv.1 = k then (kv.1, v) else kv)
  else
    values ++ [(k, v)]

/-- Truthiness of a JS number that may be NaN (none): NaN and 0 are falsy. -/
def truthyQ : Option ℚ → Bool
  | none => false
  | some q => q ≠ 0

/-- Math.max of a number and a possibly-undefined number: Math.max(a, b)
is NaN when b is undefined. -/
def jsMaxQ (a : ℚ) : Option ℚ → Option ℚ
  | none => none
  | some b => some (max a b)

/-- Strict comparison a < b where b may be NaN (none): any comparison with
NaN is false. -/
def jsLtQ (a : ℚ) : Option ℚ → Bool
  | none => false
  | some b => a < b

/-- Falsiness of a JS string that may be undefined: undefined and the empty
string are falsy (used for the dealId test of shouldFloorBid). -/
def jsFalsyStr : Option JsStr → Bool
  | none => true
  | some s => s = []

/-! Rule matching engine (enumeratePossibleFieldValues,
generatePossibleEnumerations, getFirstMatchingFloor). -/

/-- Field names of a rule schema: the synthetic symbol field plus string
field names (built-ins and publisher-registered custom fields). -/
inductive FieldN
  | syn
  | named (s : JsStr)
deriving DecidableEq, Repr

/-- Option list of one field, from enumeratePossibleFieldValues: a falsy
resolver output becomes the wildcard; a wildcard exact match yields only the
wildcard, otherwise the lower-cased exact match followed by the wildcard. -/
def fieldOptions (v : JsStr) : List JsStr :=
  let exact := if v = [] then wild else v
  if exact = wild then [wild] else [jsToLower exact, wild]

/-- Embedding of enumeratePossibleFieldValues: the resolver argument models
fieldMatchingFunctions applied to the bid and response objects. -/
def enumeratePossibleFieldValues (resolve : FieldN → JsStr) (floorFields : List FieldN) :
    List (List JsStr) :=
  floorFields.map (fun field => fieldOptions (resolve field))

/-- One step of the reduce inside generatePossibleEnumerations: every
accumulated prefix is extended by every option of the current field, the
current field varying fastest. -/
def enumStep (d : Char) (accum : List JsStr) (currentVal : List JsStr) : List JsStr :=
  accum.flatMap (fun obj => currentVal.map (fun obj1 => obj ++ d :: obj1))

/-- Candidate keys in generation order: Array.prototype.reduce with no
initial value starts from the first element (the source callers guarantee a
non-empty array). -/
def cartKeys (d : Char) : List (List JsStr) → List JsStr
  | [] => []
  | f :: rest => rest.foldl (enumStep d) f

/-- Insertion into a key-sorted list, before the first element of
greater-or-equal key only when strictly required, so equal keys keep their
original order (stability). -/
def insertByKey (k : JsStr → Nat) (x : JsStr) : List JsStr → List JsStr
  | [] => [x]
  | y :: ys => if k y < k x then y :: insertByKey k x ys else x :: y :: ys

/-- Stable sort by a numeric key, the behaviour of the (ES2019-stable)
Array.prototype.sort under the comparator (a, b) => k a - k b. -/
def stableSortByKey (k : JsStr → Nat) : List JsStr → List JsStr
  | [] => []
  | x :: xs => insertByKey k x (stableSortByKey k xs)

/-- Embedding of generatePossibleEnumerations: cartesian candidates joined
with the delimiter, then stably sorted by the count of wildcard characters. -/
def generatePossibleEnumerations (arrayOfFields : List (List JsStr)) (d : Char) : List JsStr :=
  stableSortByKey starsKey (cartKeys d arrayOfFields)

/-- Reference cartesian product in generation order: earlier (left) fields
vary slower; used to state the order properties of cartKeys. -/
def cartList : List (List α) → List (List α)
  | [] => [[]]
  | f :: r => f.flatMap (fun o => (cartList r).map (o :: ·))

/-- Result record of getFirstMatchingFloor. -/
structure MatchResult where
  floorMin : ℚ
  floorRuleValue : Option ℚ
  matchingData : JsStr
  matchingRule : Option JsStr
  matchingFloor : Option ℚ
deriving DecidableEq, Repr

/-- The per-auction rule catalog as read by the matching engine: the schema,
the (lower-cased, validated) rule values, the catalog floorMin, the
synthesized default rule recorded by normalizeDefault, the currency, and the
memoization map attached by previous matches. -/
structure AuctionCatalog where
  fields : List FieldN
  delimiter : Option Char
  values : List (JsStr × ℚ)
  floorMinQ : Option ℚ
  metaDefaultRule : Option JsStr
  currency : JsStr
  matchingInputs : List (JsStr × MatchResult)
deriving DecidableEq, Repr

/-- Memoization key: the first (exact) option of every field joined with the
one-character string used by the source join call, which is a hyphen. -/
def matchingInputKey (fieldValues : List (List JsStr)) : JsStr :=
  joinD '-' (fieldValues.map (fun field => field.headI))

/-- Property read values[matchingRule]: an undefined matchingRule is coerced
to the property key made of the characters of the word undefined. -/
def jsIndexOpt (values : List (JsStr × ℚ)) (k : Option JsStr) : Option ℚ :=
  jsLookup values (k.getD (jsStr "undefined"))

/-- Outcome of one getFirstMatchingFloor call: the returned record, the
catalog with its possibly-extended memoization map, and whether the call
generated and scanned the candidate list (false on the memo-hit and on the
empty-fields paths). -/
structure MatchOutcome where
  result : MatchResult
  data : AuctionCatalog
  enumerated : Bool
deriving DecidableEq, Repr

/-- Embedding of getFirstMatchingFloor.  The resolve argument models the
field matching functions for the given bid and response objects; reqFloorMin
models deepAccess(bidObject, the ortb2Imp floors floorMin path) when it is a
number.  The memoization map is modelled as a flat map keyed by the joined
matching input (the source stores it through dotted deep paths, which agree
with a flat map for the dot-free keys considered here). -/
def getFirstMatchingFloor (floorData : AuctionCatalog) (resolve : FieldN → JsStr)
    (reqFloorMin : Option ℚ) : MatchOutcome :=
  let fieldValues := enumeratePossibleFieldValues resolve floorData.fields
  if fieldValues.isEmpty then
    { result := { floorMin := 0, floorRuleValue := none, matchingData := [],
                  matchingRule := none, matchingFloor := none },
      data := floorData, enumerated := false }
  else
    let matchingInput := matchingInputKey fieldValues
    match jsLookup floorData.matchingInputs matchingInput with
    | some previousMatch => { result := previousMatch, data := floorData, enumerated := false }
    | none =>
      let allPossibleMatches :=
        generatePossibleEnumerations fieldValues (floorData.delimiter.getD '|')
      let matchingRule :=
        allPossibleMatches.find? (fun hashValue => (jsLookup floorData.values hashValue).isSome)
      let baseFloorMin := floorData.floorMinQ.getD 0
      let floorMinUsed := reqFloorMin.getD baseFloorMin
      let floorRuleValue := jsIndexOpt floorData.values matchingRule
      let matchingData : MatchResult :=
        { floorMin := floorMinUsed,
          floorRuleValue := floorRuleValue,
          matchingData := allPossibleMatches.headI,
          matchingRule :=
            if matchingRule = floorData.metaDefaultRule then none else matchingRule,
          matchingFloor := jsMaxQ floorMinUsed floorRuleValue }
      { result := matchingData,
        data := { floorData with
                  matchingInputs := floorData.matchingInputs ++ [(matchingInput, matchingData)] },
        enumerated := true }

/-! Floor query capability (getFloor) and enforcement pipeline
(addBidResponseHook, addFloorDataToBid, shouldFloorBid). -/

/-- Resolved per-auction floor data as consumed by getFloor and the
enforcement hook: the catalog, the skip decision and the enforcement flags.
The enforceJS and floorDeals flags keep their raw optional form because the
source reads them with a not-strictly-false (respectively strictly-true)
test. -/
structure AuctionFloorData where
  data : AuctionCatalog
  skipped : Bool
  enfEnforceJS : Option Bool
  enfFloorDeals : Option Bool
  enfBidAdjustment : Bool
deriving DecidableEq, Repr

/-- Rounding of toFixed(1): nearest multiple of one tenth, ties toward the
larger value, per the Number.prototype.toFixed algorithm. -/
def toFixed1 (q : ℚ) : ℚ := (Int.floor (q * 10 + 1 / 2) : ℚ) / 10

/-- Embedding of roundUp: ceil of the value scaled by ten to the precision,
after the toFixed(1) guard against binary representation noise. -/
def roundUp (number : ℚ) (precision : ℕ) : ℚ :=
  (Int.ceil (toFixed1 (number * 10 ^ precision)) : ℚ) / 10 ^ precision

/-- Embedding of calculateAdjustedFloor; over the rationals the scaled
product evaluates exactly, to oldFloor squared over newFloor. -/
def calculateAdjustedFloor (oldFloor newFloor : ℚ) : ℚ :=
  let pow : ℚ := 10 ^ 10
  ((oldFloor * pow) / (newFloor * pow) * (oldFloor * pow)) / pow

/-- Embedding of getFloor.  Arguments model the external collaborators: the
field resolution for this request (with the request-parameter inference of
updateRequestParamsFromContext already applied to the resolved values), the
currency conversion (none models a thrown conversion error), the optional
publisher inverse adjustment function and the bidder cpm adjustment.  The
result is the floor-and-currency pair, none standing for the empty object. -/
def getFloor (floorDataOpt : Option AuctionFloorData) (resolve : FieldN → JsStr)
    (reqFloorMin : Option ℚ) (reqCurrency : Option JsStr)
    (convert : ℚ → JsStr → JsStr → Option ℚ)
    (inverseFn : Option (ℚ → ℚ)) (cpmAdj : ℚ → ℚ) : Option (ℚ × JsStr) :=
  match floorDataOpt with
  | none => none
  | some floorData =>
    if floorData.skipped then none
    else
      let floorInfo := (getFirstMatchingFloor floorData.data resolve reqFloorMin).result
      let currency0 := reqCurrency.getD floorData.data.currency
      let converted :=
        if truthyQ floorInfo.matchingFloor ∧ currency0 ≠ floorData.data.currency then
          match floorInfo.matchingFloor with
          | some f =>
            match convert f floorData.data.currency currency0 with
            | some c => (some c, currency0)
            | none => (some f, floorData.data.currency)
          | none => (none, currency0)
        else (floorInfo.matchingFloor, currency0)
      let adjusted :=
        if floorData.enfBidAdjustment ∧ truthyQ converted.1 then
          match converted.1 with
          | some f =>
            match inverseFn with
            | some g => some (g f)
            | none =>
              let cpmAdjustment := cpmAdj f
              if cpmAdjustment ≠ 0 then some (calculateAdjustedFloor f cpmAdjustment)
              else some f
          | none => converted.1
        else converted.1
      if truthyQ adjusted then
        match adjusted with
        | some f => some (roundUp f 4, converted.2)
        | none => none
      else none

/-- Bid response fields read by the enforcement hook. -/
structure BidResp where
  cpm : ℚ
  currency : Option JsStr
  originalCurrency : Option JsStr
  originalCpm : ℚ
  dealId : Option JsStr
deriving DecidableEq, Repr

/-- Floor context attached to a bid by addFloorDataToBid. -/
structure BidFloorData where
  floorValue : Option ℚ
  floorRule : Option JsStr
  floorRuleValue : Option ℚ
  floorCurrency : JsStr
  cpmAfterAdjustments : ℚ
  enfEnforceJS : Option Bool
  enfFloorDeals : Option Bool
  enfBidAdjustment : Bool
  matchedFields : List (FieldN × Option JsStr)
deriving DecidableEq, Repr

/-- Per-field matched values: the matched key split on the schema delimiter,
read back positionally against the field list. -/
def matchedFieldsOf (fields : List FieldN) (delim : Char) (matchingData : JsStr) :
    List (FieldN × Option JsStr) :=
  let parts := splitCh delim matchingData
  fields.enum.map (fun p => (p.2, parts.get? p.1))

/-- Embedding of addFloorDataToBid: the record the hook stores on the bid. -/
def addFloorDataToBid (floorData : AuctionFloorData) (floorInfo : MatchResult)
    (adjustedCpm : ℚ) : BidFloorData :=
  { floorValue := floorInfo.matchingFloor,
    floorRule := floorInfo.matchingRule,
    floorRuleValue := floorInfo.floorRuleValue,
    floorCurrency := floorData.data.currency,
    cpmAfterAdjustments := adjustedCpm,
    enfEnforceJS := floorData.enfEnforceJS,
    enfFloorDeals := floorData.enfFloorDeals,
    enfBidAdjustment := floorData.enfBidAdjustment,
    matchedFields :=
      matchedFieldsOf floorData.data.fields (floorData.data.delimiter.getD '|')
        floorInfo.matchingData }

/-- Embedding of shouldFloorBid. -/
def shouldFloorBid (floorData : AuctionFloorData) (floorInfo : MatchResult)
    (bidFloorData : BidFloorData) (dealId : Option JsStr) : Bool :=
  let enforceJS := floorData.enfEnforceJS ≠ some false
  let shouldFloorDeal := floorData.enfFloorDeals = some true ∨ jsFalsyStr dealId
  let bidBelowFloor := jsLtQ bidFloorData.cpmAfterAdjustments floorInfo.matchingFloor
  enforceJS ∧ (bidBelowFloor ∧ shouldFloorDeal)

/-- Fixed rejection reason carried by a floored bid
(REJECTION_REASON.FLOOR_NOT_MET). -/
inductive RejectReason
  | floorNotMet
deriving DecidableEq, Repr

/-- Outcome of the enforcement hook on one bid: either the normal response
pipeline continues (fn.call) or the bid is rejected with a reason; in both
cases the bid carries the floor context when and only when the hook attached
one. -/
inductive HookOutcome
  | continueWith (bid : BidResp) (floorData : Option BidFloorData)
  | rejectWith (reason : RejectReason) (bid : BidResp) (floorData : Option BidFloorData)
deriving DecidableEq, Repr

/-- Base cpm in the floor currency, per the three-way priority of the hook;
none models the currency-conversion throw (caught: the bid passes through
unenforced). -/
def currencyAdjustedCpm (convert : ℚ → JsStr → JsStr → Option ℚ) (floorCurrency : JsStr)
    (bid : BidResp) : Option ℚ :=
  let bidResponseCurrency := bid.currency.getD (jsStr "USD")
  if jsToUpper bidResponseCurrency = floorCurrency then some bid.cpm
  else
    match bid.originalCurrency with
    | some oc =>
      if jsToUpper oc = floorCurrency then some bid.originalCpm
      else convert bid.cpm (jsToUpper bidResponseCurrency) floorCurrency
    | none => convert bid.cpm (jsToUpper bidResponseCurrency) floorCurrency

/-- Embedding of addBidResponseHook.  The cpmAdj argument models
getBiddersCpmAdjustment for this bidder, applied to the currency-normalized
cpm; resolve and reqFloorMin are as in getFirstMatchingFloor. -/
def addBidResponseHook (floorDataOpt : Option AuctionFloorData) (resolve : FieldN → JsStr)
    (reqFloorMin : Option ℚ) (convert : ℚ → JsStr → JsStr → Option ℚ)
    (cpmAdj : ℚ → ℚ) (bid : BidResp) : HookOutcome :=
  match floorDataOpt with
  | none => .continueWith bid none
  | some floorData =>
    if floorData.skipped then .continueWith bid none
    else
      let floorInfo := (getFirstMatchingFloor floorData.data resolve reqFloorMin).result
      if ¬ truthyQ floorInfo.matchingFloor then .continueWith bid none
      else
        let floorCurrency := jsToUpper floorData.data.currency
        match currencyAdjustedCpm convert floorCurrency bid with
        | none => .continueWith bid none
        | some baseCpm =>
          let adjustedCpm := cpmAdj baseCpm
          let bidFloorData := addFloorDataToBid floorData floorInfo adjustedCpm
          if shouldFloorBid floorData floorInfo bidFloorData bid.dealId then
            .rejectWith .floorNotMet bid (some bidFloorData)
          else
            .continueWith bid (some bidFloorData)

/-! Rule catalog validator (normalizeDefault, validateSchemaFields,
validateRules, modelIsValid, floorsSchemaValidation, isFloorsDataValid). -/

/-- Values of a raw rules object before validation: a number, the null
value, or some other non-numeric value. -/
inductive JsVal
  | num (q : ℚ)
  | nul
  | other
deriving DecidableEq, Repr

instance : Inhabited JsVal := ⟨JsVal.other⟩

/-- The typeof-number test of the source (isNumber and the typeof check of
isValidRule). -/
def isNumberV : Option JsVal → Bool
  | some (.num _) => true
  | _ => false

/-- The loose equality test v == null of normalizeDefault: true for an
absent (undefined) or null value. -/
def eqNullLoose : Option JsVal → Bool
  | none => true
  | some .nul => true
  | _ => false

/-- Raw floor model as received by the validator: the version-1 shape, also
used for each model group of version 2.  Optional components stand for
absent object properties; the values component is none when it is not an
object. -/
structure FloorModel where
  schemaFields : Option (List FieldN)
  schemaDelimiter : Option Char
  values : Option (List (JsStr × JsVal))
  dflt : Option JsVal
  metaDefaultRule : Option JsStr
deriving DecidableEq, Repr

/-- Built-in allowed fields of the module (SYN_FIELD, gptSlot, adUnitCode,
size, domain, mediaType). -/
def allowedFieldsInit : List FieldN :=
  [FieldN.syn, FieldN.named (jsStr "gptSlot"), FieldN.named (jsStr "adUnitCode"),
   FieldN.named (jsStr "size"), FieldN.named (jsStr "domain"),
   FieldN.named (jsStr "mediaType")]

/-- Embedding of normalizeDefault: a numeric scalar default is expanded into
an all-wildcard rule; with no declared fields a single synthetic field is
installed first.  The rule is only written (and meta.defaultRule recorded)
when the default-rule key is currently nullish. -/
def normalizeDefault (model : FloorModel) : FloorModel :=
  if isNumberV model.dflt then
    let numFields := (model.schemaFields.getD []).length
    let model1 :=
      if numFields = 0 then { model with schemaFields := some [FieldN.syn] } else model
    let defaultRule :=
      if numFields = 0 then wild
      else joinD (model.schemaDelimiter.getD '|') (List.replicate numFields wild)
    let vals := model1.values.getD []
    if eqNullLoose (jsLookup vals defaultRule) then
      { model1 with
        values := some (jsSet vals defaultRule (model.dflt.getD .nul)),
        metaDefaultRule := some defaultRule }
    else
      { model1 with values := some vals }
  else model

/-- Embedding of validateSchemaFields: a non-empty array whose entries all
belong to the allowed fields. -/
def validateSchemaFields (allowed : List FieldN) (fields : Option (List FieldN)) : Bool :=
  match fields with
  | some fs => !fs.isEmpty && fs.all (fun f => allowed.contains f)
  | none => false

/-- Embedding of isValidRule: the key splits into exactly numFields segments
and the value is a number (keys of a JS object are always strings, so the
typeof-string test of the source always passes here). -/
def isValidRule (key : JsStr) (floor : JsVal) (numFields : ℕ) (delimiter : Char) : Bool :=
  ((splitCh delimiter key).length = numFields) && isNumberV (some floor)

/-- Embedding of validateRules: invalid entries are dropped in place and the
rules object is valid when at least one entry survives.  Returns the
decision together with the mutated model. -/
def validateRules (floorsData : FloorModel) (numFields : ℕ) (delimiter : Char) :
    Bool × FloorModel :=
  match floorsData.values with
  | none => (false, floorsData)
  | some vals =>
    let filtered := vals.filter (fun kv => isValidRule kv.1 kv.2 numFields delimiter)
    (!filtered.isEmpty, { floorsData with values := some filtered })

/-- Embedding of modelIsValid: normalize the default, check the schema
fields, then filter the rules. -/
def modelIsValid (allowed : List FieldN) (model : FloorModel) : Bool × FloorModel :=
  let m := normalizeDefault model
  if !validateSchemaFields allowed m.schemaFields then (false, m)
  else validateRules m (m.schemaFields.getD []).length (m.schemaDelimiter.getD '|')

/-- One model group of a version-2 catalog: a model plus its weight (kept
raw for the typeof-number test). -/
structure ModelGroup where
  model : FloorModel
  modelWeight : Option JsVal
deriving DecidableEq, Repr

/-- Numeric weight of a group whose weight passed the typeof test. -/
def weightQ (g : ModelGroup) : ℚ :=
  match g.modelWeight with
  | some (.num q) => q
  | _ => 0

/-- Embedding of the every-loop of the version-2 validation: groups are
checked left to right, each valid group is mutated in place and its weight
added to the running sum; the first invalid group stops the loop, leaving
later groups untouched. -/
def validateGroupsGo (allowed : List FieldN) (acc : ℚ) :
    List ModelGroup → Bool × List ModelGroup × ℚ
  | [] => (true, [], acc)
  | g :: gs =>
    if isNumberV g.modelWeight then
      let r := modelIsValid allowed g.model
      let g1 : ModelGroup := { g with model := r.2 }
      if r.1 then
        let rest := validateGroupsGo allowed (acc + weightQ g) gs
        (rest.1, g1 :: rest.2.1, rest.2.2)
      else (false, g1 :: gs, acc)
    else (false, g :: gs, acc)

/-- Raw floors data at the top of the validator: the version-1 model shape
at top level, plus the version tag and the version-2 components. -/
structure FloorsData where
  floorsSchemaVersion : Option ℕ
  model : FloorModel
  modelGroups : Option (List ModelGroup)
  modelWeightSum : Option ℚ
deriving DecidableEq, Repr

/-- Embedding of isFloorsDataValid together with the floorsSchemaValidation
table: the version defaults to 1 when falsy, unknown versions are rejected,
version 1 validates the top-level model, version 2 validates every model
group while accumulating the weight sum.  Returns the decision and the
mutated data. -/
def isFloorsDataValid (allowed : List FieldN) (floorsData : FloorsData) : Bool × FloorsData :=
  let version :=
    match floorsData.floorsSchemaVersion with
    | none => 1
    | some 0 => 1
    | some v => v
  let d1 := { floorsData with floorsSchemaVersion := some version }
  if version = 1 then
    let r := modelIsValid allowed d1.model
    (r.1, { d1 with model := r.2 })
  else if version = 2 then
    match d1.modelGroups with
    | none => (false, d1)
    | some [] => (false, d1)
    | some gs =>
      let r := validateGroupsGo allowed 0 gs
      (r.1, { d1 with modelGroups := some r.2.1, modelWeightSum := some r.2.2 })
  else (false, d1)

/-! Fetch and delay coordinator (requestBidsHook, continueAuction,
resumeDelayedAuctions, the fetch handlers and the auction-delay timer). -/

/-- Fetch status recorded on the module configuration. -/
inductive FetchStatus
  | success
  | error
  | timeout
deriving DecidableEq, Repr

/-- One parked auction continuation: its identity and the handle of the
timer armed for it (hookConfig of requestBidsHook). -/
structure HookCfg where
  cid : ℕ
  timer : ℕ
deriving DecidableEq, Repr

/-- Coordinator state: the delayed-auction queue, the set of continuations
that have exited (the hasExited guards), the cancelled timer handles, the
fetch flag and status, and the ordered log of continuation resumptions, each
with the fetch status visible at resumption time (the nextFn calls). -/
structure CoordState where
  delayed : List HookCfg
  exited : List ℕ
  cancelledTimers : List ℕ
  fetching : Bool
  fetchStatus : Option FetchStatus
  resumedLog : List (ℕ × Option FetchStatus)
deriving DecidableEq, Repr

/-- Embedding of continueAuction: under the hasExited guard, drop every
queue entry with this timer handle, resume the continuation (recorded in the
log with the current fetch status) and mark it exited. -/
def continueAuction (h : HookCfg) (s : CoordState) : CoordState :=
  if h.cid ∈ s.exited then s
  else
    { s with
      delayed := s.delayed.filter (fun a => a.timer ≠ h.timer),
      resumedLog := s.resumedLog ++ [(h.cid, s.fetchStatus)],
      exited := s.exited ++ [h.cid] }

/-- Embedding of requestBidsHook: with a positive auction delay and a fetch
in flight the continuation is parked at the back of the queue with its armed
timer, otherwise the auction continues at once. -/
def requestBidsHook (auctionDelay : ℕ) (h : HookCfg) (s : CoordState) : CoordState :=
  if auctionDelay > 0 ∧ s.fetching then { s with delayed := s.delayed ++ [h] }
  else continueAuction h s

/-- Embedding of the timer callback armed by requestBidsHook: force the
fetch status to timeout, then continue that auction. -/
def timerFire (h : HookCfg) (s : CoordState) : CoordState :=
  continueAuction h { s with fetchStatus := some .timeout }

/-- Embedding of resumeDelayedAuctions: iterate the queue snapshot in order,
cancelling each timer and continuing each auction, then clear the queue. -/
def resumeDelayedAuctions (s : CoordState) : CoordState :=
  let q := s.delayed
  let s1 := q.foldl
    (fun acc h => continueAuction h { acc with cancelledTimers := acc.cancelledTimers ++ [h.timer] })
    s
  { s1 with delayed := [] }

/-- Embedding of the coordination part of handleFetchResponse and
handleFetchError: clear the fetch flag, record the settled status, and
resume every delayed auction. -/
def fetchSettle (st : FetchStatus) (s : CoordState) : CoordState :=
  resumeDelayedAuctions { s with fetching := false, fetchStatus := some st }

/-! Skip-rate sampling of createFloorsDataForAuction. -/

/-- Applicable skip rate of an auction: the debug query parameter when it is
a non-empty string (modelled by its parsed value), otherwise the catalog
data skip rate under nullish coalescing, otherwise the top-level configured
rate; none stands for an undefined rate (whose parseFloat is NaN). -/
def applicableSkipRate (queryRate dataRate rootRate : Option ℚ) : Option ℚ :=
  match queryRate with
  | some q => some q
  | none =>
    match dataRate with
    | some r => some r
    | none => rootRate

/-- Skip decision of createFloorsDataForAuction for a usable catalog: a
uniform draw in the unit interval, scaled by 100, strictly below the
applicable rate; a NaN rate never skips. -/
def computeSkipped (rand : ℚ) (queryRate dataRate rootRate : Option ℚ) : Bool :=
  match applicableSkipRate queryRate dataRate rootRate with
  | none => false
  | some r => rand * 100 < r

/-- Skip decision including the no-usable-catalog branch: with no rules the
auction is skipped outright, otherwise the sampled decision applies. -/
def resolveSkipped (valuesEmpty : Bool) (rand : ℚ)
    (queryRate dataRate rootRate : Option ℚ) : Bool :=
  if valuesEmpty then true else computeSkipped rand queryRate dataRate rootRate

/-- Modelled from the spec: the skip-rate priority order as the claim states
it, namely the fetched catalog data rate first, then the static top-level
rate, then the debug query parameter.  Used only to exhibit the divergence
from the source priority. -/
def claimSkipRatePriority (queryRate dataRate rootRate : Option ℚ) : Option ℚ :=
  match dataRate with
  | some r => some r
  | none =>
    match rootRate with
    | some r => some r
    | none => queryRate

/-- Modelled from the spec: the skip decision under the priority order of
the claim. -/
def claimComputeSkipped (rand : ℚ) (queryRate dataRate rootRate : Option ℚ) : Bool :=
  match claimSkipRatePriority queryRate dataRate rootRate with
  | none => false
  | some r => rand * 100 < r

/-! Derived notions used by the theorem statements. -/

/-- Number of wildcard segments of a key with respect to a delimiter. -/
def wcCount (d : Char) (s : JsStr) : ℕ := (splitCh d s).count wild

/-- Default-rule key a model would synthesize for its current schema (the
all-wildcard key of its field count). -/
def defaultRuleOf (m : FloorModel) : JsStr :=
  joinD (m.schemaDelimiter.getD '|') (List.replicate (m.schemaFields.getD []).length wild)

/-- Stability of an accepted model under re-validation: when the model
carries a numeric scalar default, its default-rule key is present (non-null)
among the surviving values. -/
def modelDefaultStable (m : FloorModel) : Prop :=
  isNumberV m.dflt = true →
    eqNullLoose (jsLookup (m.values.getD []) (defaultRuleOf m)) = false

/-- Cleanliness of one candidate option: the wildcard itself, or a value
free of wildcard and delimiter characters. -/
def optClean (d : Char) (o : JsStr) : Prop := o = wild ∨ ('*' ∉ o ∧ d ∉ o)

/-- Cleanliness of a resolved field value: falsy, the wildcard, or a value
whose lower-cased form is free of wildcard and delimiter characters. -/
def resolvedClean (d : Char) (v : JsStr) : Prop :=
  v = [] ∨ v = wild ∨ ('*' ∉ jsToLower v ∧ d ∉ jsToLower v)

instance (d : Char) (o : JsStr) : Decidable (optClean d o) := by
  unfold optClean; infer_instance

instance (d : Char) (v : JsStr) : Decidable (resolvedClean d v) := by
  unfold resolvedClean; infer_instance

instance (m : FloorModel) : Decidable (modelDefaultStable m) := by
  unfold modelDefaultStable; infer_instance

/-! Concrete fixtures used by counterexamples and witnesses. -/

/-- One-field catalog holding the single rule banner with floor one. -/
def bannerCat : AuctionCatalog :=
  { fields := [FieldN.named (jsStr "mediaType")], delimiter := some '|',
    values := [(jsStr "banner", 1)], floorMinQ := none, metaDefaultRule := none,
    currency := jsStr "USD", matchingInputs := [] }

/-- Default-enforcement floor data over the banner catalog. -/
def bannerFD : AuctionFloorData :=
  { data := bannerCat, skipped := false, enfEnforceJS := some true,
    enfFloorDeals := some false, enfBidAdjustment := true }

/-- Context resolver whose every field resolves to banner. -/
def bannerResolve : FieldN → JsStr := fun _ => jsStr "banner"

/-- Currency conversion that always throws (never needed when the bid is
already in the floor currency). -/
def noConvert : ℚ → JsStr → JsStr → Option ℚ := fun _ _ _ => none

/-- Bid of zero USD with no deal id, strictly below every positive floor
(whole numbers keep every comparison kernel-computable). -/
def lowBid : BidResp :=
  { cpm := 0, currency := some (jsStr "USD"), originalCurrency := none,
    originalCpm := 0, dealId := none }

/-- Bid of 2 USD with no deal id. -/
def highBid : BidResp :=
  { cpm := 2, currency := some (jsStr "USD"), originalCurrency := none,
    originalCpm := 2, dealId := none }

/-- Version-1 floors data whose values carry the default-rule key with a
non-numeric entry next to one valid rule, plus a numeric scalar default:
after validation drops the bad entry, the default-rule key is free again. -/
def staleDefaultData : FloorsData :=
  { floorsSchemaVersion := none,
    model :=
      { schemaFields := some [FieldN.named (jsStr "mediaType"), FieldN.named (jsStr "size")],
        schemaDelimiter := none,
        values := some [(jsStr "*|*", JsVal.other), (jsStr "banner|300x250", JsVal.num 1)],
        dflt := some (JsVal.num 5), metaDefaultRule := none },
    modelGroups := none, modelWeightSum := none }

/-- Coordinator state with two distinct parked continuations while a fetch
is in flight. -/
def parkedState : CoordState :=
  { delayed := [{ cid := 1, timer := 10 }, { cid := 2, timer := 20 }],
    exited := [], cancelledTimers := [], fetching := true, fetchStatus := none,
    resumedLog := [] }

/-! Lemmas about splitting, joining and counting characters. -/

theorem splitCh_of_not_mem {d : Char} {s : JsStr} (h : d ∉ s) : splitCh d s = [s] := by
  induction s with
  | nil => rfl
  | cons c cs ih =>
    have hc : ¬ c = d := fun e => h (e ▸ List.mem_cons_self c cs)
    have ih1 := ih (fun hm => h (List.mem_cons_of_mem c hm))
    simp [splitCh, hc, ih1]

theorem splitCh_append_cons {d : Char} {x y : JsStr} (h : d ∉ x) :
    splitCh d (x ++ d :: y) = x :: splitCh d y := by
  induction x with
  | nil => simp [splitCh]
  | cons c cs ih =>
    have hc : ¬ c = d := fun e => h (e ▸ List.mem_cons_self c cs)
    have ih1 := ih (fun hm => h (List.mem_cons_of_mem c hm))
    simp [splitCh, hc, ih1]

theorem splitCh_joinD {d : Char} :
    ∀ {ps : List JsStr}, ps ≠ [] → (∀ p ∈ ps, d ∉ p) → splitCh d (joinD d ps) = ps
  | [], hne, _ => absurd rfl hne
  | [x], _, h => by
    simpa [joinD] using splitCh_of_not_mem (h x (by simp))
  | x :: y :: t, _, h => by
    rw [joinD, splitCh_append_cons (h x (by simp))]
    rw [splitCh_joinD (by simp) (fun p hp => h p (List.mem_cons_of_mem x hp))]

theorem starsKey_joinD {d : Char} (hd : d ≠ '*') :
    ∀ ps : List JsStr, starsKey (joinD d ps) = (ps.map starsKey).sum
  | [] => by simp [joinD, starsKey]
  | [x] => by simp [joinD]
  | x :: y :: t => by
    have ih := starsKey_joinD hd (y :: t)
    have hd1 : ¬ d = '*' := hd
    simp [joinD, starsKey, List.count_append, List.count_cons, hd1] at ih ⊢
    omega

theorem sum_starsKey_eq_count {d : Char} :
    ∀ {ps : List JsStr}, (∀ p ∈ ps, optClean d p) → (ps.map starsKey).sum = ps.count wild := by
  intro ps
  induction ps with
  | nil => intro _; rfl
  | cons p t ih =>
    intro h
    have hp := h p (by simp)
    have ht := ih (fun q hq => h q (List.mem_cons_of_mem p hq))
    rcases hp with hp | hp
    · subst hp
      simp [List.count_cons, ht, starsKey, wild, jsStr]
      omega
    · have hz : starsKey p = 0 := List.count_eq_zero.mpr hp.1
      have hnw : ¬ p = wild := fun e => hp.1 (e ▸ (by simp [wild, jsStr]))
      simp [List.count_cons, ht, hz, hnw]

/-! Lemmas about the stable insertion sort. -/

theorem perm_insertByKey (k : JsStr → Nat) (x : JsStr) :
    ∀ l : List JsStr, List.Perm (insertByKey k x l) (x :: l) := by
  intro l
  induction l with
  | nil => simp [insertByKey]
  | cons y ys ih =>
    by_cases h : k y < k x
    · simp only [insertByKey, if_pos h]
      exact (ih.cons y).trans (List.Perm.swap x y ys)
    · simp [insertByKey, h]

theorem perm_stableSortByKey (k : JsStr → Nat) :
    ∀ l : List JsStr, List.Perm (stableSortByKey k l) l := by
  intro l
  induction l with
  | nil => simp [stableSortByKey]
  | cons x xs ih =>
    exact (perm_insertByKey k x (stableSortByKey k xs)).trans (ih.cons x)

theorem pairwise_insertByKey (k : JsStr → Nat) (x : JsStr) :
    ∀ {l : List JsStr}, l.Pairwise (fun a b => k a ≤ k b) →
      (insertByKey k x l).Pairwise (fun a b => k a ≤ k b) := by
  intro l
  induction l with
  | nil => intro _; simp [insertByKey]
  | cons y ys ih =>
    intro hl
    rcases List.pairwise_cons.mp hl with ⟨hy, hys⟩
    by_cases h : k y < k x
    · simp only [insertByKey, if_pos h]
      refine List.pairwise_cons.mpr ⟨?_, ih hys⟩
      intro b hb
      rcases List.mem_cons.mp ((perm_insertByKey k x ys).mem_iff.mp hb) with hb | hb
      · exact hb ▸ Nat.le_of_lt h
      · exact hy b hb
    · simp only [insertByKey, if_neg h]
      refine List.pairwise_cons.mpr ⟨?_, hl⟩
      intro b hb
      rcases List.mem_cons.mp hb with hb | hb
      · exact hb ▸ Nat.le_of_not_lt h
      · exact Nat.le_trans (Nat.le_of_not_lt h) (hy b hb)

theorem pairwise_stableSortByKey (k : JsStr → Nat) :
    ∀ l : List JsStr, (stableSortByKey k l).Pairwise (fun a b => k a ≤ k b) := by
  intro l
  induction l with
  | nil => simp [stableSortByKey]
  | cons x xs ih => exact pairwise_insertByKey k x ih

theorem filter_insertByKey_neg (k : JsStr → Nat) (x : JsStr) (p : JsStr → Bool)
    (hx : p x = false) :
    ∀ l : List JsStr, (insertByKey k x l).filter p = l.filter p := by
  intro l
  induction l with
  | nil => simp [insertByKey, hx]
  | cons y ys ih =>
    by_cases h : k y < k x
    · simp only [insertByKey, if_pos h]
      cases hy : p y <;> simp [List.filter_cons, hy, ih]
    · simp [insertByKey, h, List.filter_cons, hx]

theorem filter_insertByKey_pos (k : JsStr → Nat) (x : JsStr) (p : JsStr → Bool)
    (hx : p x = true) (hmin : ∀ y, p y = true → k x ≤ k y) :
    ∀ l : List JsStr, (insertByKey k x l).filter p = x :: l.filter p := by
  intro l
  induction l with
  | nil => simp [insertByKey, hx]
  | cons y ys ih =>
    by_cases h : k y < k x
    · have hpy : p y = false := by
        cases hpy : p y
        · rfl
        · exact absurd (hmin y hpy) (Nat.not_le.mpr h)
      simp [insertByKey, h, List.filter_cons, hpy, ih]
    · simp [insertByKey, h, List.filter_cons, hx]

theorem filter_stableSortByKey (k : JsStr → Nat) (c : ℕ) :
    ∀ l : List JsStr,
      (stableSortByKey k l).filter (fun x => k x = c) = l.filter (fun x => k x = c) := by
  intro l
  induction l with
  | nil => rfl
  | cons x xs ih =>
    by_cases hx : k x = c
    · rw [stableSortByKey,
        filter_insertByKey_pos k x _ (by simp [hx]) (fun y hy => by
          have : k y = c := by simpa using hy
          omega), ih]
      simp [List.filter_cons, hx]
    · rw [stableSortByKey, filter_insertByKey_neg k x _ (by simp [hx]), ih]
      simp [List.filter_cons, hx]

/-! Lemmas about the candidate generation order. -/

theorem joinD_glue (d : Char) (o o1 : JsStr) (ps : List JsStr) :
    joinD d ((o ++ d :: o1) :: ps) = o ++ d :: joinD d (o1 :: ps) := by
  cases ps <;> simp [joinD]

theorem foldl_enumStep (d : Char) :
    ∀ (rest : List (List JsStr)) (acc : List JsStr),
      rest.foldl (enumStep d) acc =
        acc.flatMap (fun o => (cartList rest).map (fun ps => joinD d (o :: ps)))
  | [], acc => by
    simp [cartList, joinD]
  | c :: rest, acc => by
    rw [List.foldl_cons, foldl_enumStep d rest (enumStep d acc c)]
    simp only [enumStep, cartList, List.flatMap_assoc, List.map_flatMap,
      List.flatMap_map, List.map_map, Function.comp]
    refine List.flatMap_congr ?_
    intro o _
    refine List.flatMap_congr ?_
    intro o1 _
    refine List.map_congr_left ?_
    intro ps _
    simp only [Function.comp_def]
    rw [joinD_glue d o o1 ps]
    rfl

theorem cartKeys_eq_map_joinD (d : Char) (f : List JsStr) (rest : List (List JsStr)) :
    cartKeys d (f :: rest) = (cartList (f :: rest)).map (joinD d) := by
  rw [cartKeys, foldl_enumStep]
  simp [cartList, List.map_flatMap, List.flatMap_map, List.map_map, Function.comp_def]

theorem mem_cartList {α : Type} :
    ∀ {L : List (List α)} {ps : List α},
      ps ∈ cartList L ↔ List.Forall₂ (fun p f => p ∈ f) ps L := by
  intro L
  induction L with
  | nil =>
    intro ps
    constructor
    · intro h
      rcases List.mem_singleton.mp h with rfl
      exact List.Forall₂.nil
    · intro h
      cases h
      simp [cartList]
  | cons f r ih =>
    intro ps
    constructor
    · intro h
      rcases List.mem_flatMap.mp h with ⟨o, ho, hps⟩
      rcases List.mem_map.mp hps with ⟨ps', hps', rfl⟩
      exact List.Forall₂.cons ho (ih.mp hps')
    · intro h
      cases h with
      | cons hpo hrest =>
        exact List.mem_flatMap.mpr ⟨_, hpo, List.mem_map.mpr ⟨_, ih.mpr hrest, rfl⟩⟩

theorem forall₂_mem_left {α β : Type} {R : α → β → Prop} :
    ∀ {l₁ : List α} {l₂ : List β}, List.Forall₂ R l₁ l₂ → ∀ {a}, a ∈ l₁ → ∃ b ∈ l₂, R a b := by
  intro l₁ l₂ h
  induction h with
  | nil => intro a ha; cases ha
  | cons hr _ ih =>
    intro a ha
    rcases List.mem_cons.mp ha with rfl | ha
    · exact ⟨_, by simp, hr⟩
    · rcases ih ha with ⟨b, hb, hab⟩
      exact ⟨b, List.mem_cons_of_mem _ hb, hab⟩

theorem fieldOptions_clean {d : Char} {v : JsStr} (h : resolvedClean d v) :
    ∀ o ∈ fieldOptions v, optClean d o := by
  intro o ho
  by_cases hv : v = []
  · subst hv
    simp [fieldOptions] at ho
    exact Or.inl ho
  · by_cases hw : v = wild
    · subst hw
      simp [fieldOptions] at ho
      exact Or.inl ho
    · rcases h with h | h | h
      · exact absurd h hv
      · exact absurd h hw
      · simp [fieldOptions, hv, hw] at ho
        rcases ho with rfl | rfl
        · exact Or.inr h
        · exact Or.inl rfl

theorem optClean_not_mem {d : Char} (hd : d ≠ '*') {o : JsStr} (h : optClean d o) : d ∉ o := by
  rcases h with rfl | h
  · simp [wild, jsStr]
    exact fun e => hd e
  · exact h.2

/-- C1 is refuted on the code: when a resolved exact field value itself
contains wildcard characters, the sort key of the source (the count of
wildcard characters) diverges from the count of wildcard segments, and the
candidate list of generatePossibleEnumerations is not ordered by
non-decreasing wildcard-segment count.  Concretely, with fields adUnitCode
and mediaType resolving to the strings A** and b, the sorted candidate list
places the one-wildcard-segment candidate before the zero-wildcard-segment
candidate. -/
theorem C1_counterexample :
    ¬ (generatePossibleEnumerations
        (enumeratePossibleFieldValues
          (fun f => if f = FieldN.named (jsStr "adUnitCode") then jsStr "A**" else jsStr "b")
          [FieldN.named (jsStr "adUnitCode"), FieldN.named (jsStr "mediaType")]) '|').Pairwise
      (fun a b => wcCount '|' a ≤ wcCount '|' b) := by
  decide

/-- C1 (amended): provided the delimiter is not the wildcard character and
every resolved exact field value is free of wildcard and delimiter
characters, the candidate list of generatePossibleEnumerations over the
per-field option lists satisfies the claim: the generation order is the
cartesian product with earlier (left) fields varying slower, every candidate
key has exactly fields.length delimiter-separated segments, the sorted list
is monotonically non-decreasing in wildcard-segment count, and candidates
with equal wildcard count keep their generation order. -/
theorem C1_candidate_generation
    (resolve : FieldN → JsStr) (fields : List FieldN) (d : Char)
    (hfields : fields ≠ []) (hd : d ≠ '*')
    (hclean : ∀ f ∈ fields, resolvedClean d (resolve f)) :
    cartKeys d (enumeratePossibleFieldValues resolve fields) =
        (cartList (enumeratePossibleFieldValues resolve fields)).map (joinD d)
    ∧ (∀ x ∈ generatePossibleEnumerations (enumeratePossibleFieldValues resolve fields) d,
        (splitCh d x).length = fields.length)
    ∧ (generatePossibleEnumerations (enumeratePossibleFieldValues resolve fields) d).Pairwise
        (fun a b => wcCount d a ≤ wcCount d b)
    ∧ (∀ c : ℕ,
        (generatePossibleEnumerations (enumeratePossibleFieldValues resolve fields) d).filter
            (fun x => decide (wcCount d x = c)) =
          (cartKeys d (enumeratePossibleFieldValues resolve fields)).filter
            (fun x => decide (wcCount d x = c))) := by
  have hoptsne : enumeratePossibleFieldValues resolve fields ≠ [] := by
    simpa [enumeratePossibleFieldValues] using hfields
  obtain ⟨f, rest, hcons⟩ :
      ∃ f rest, enumeratePossibleFieldValues resolve fields = f :: rest := by
    cases h : enumeratePossibleFieldValues resolve fields with
    | nil => exact absurd h hoptsne
    | cons f rest => exact ⟨f, rest, rfl⟩
  have hgen : cartKeys d (enumeratePossibleFieldValues resolve fields) =
      (cartList (enumeratePossibleFieldValues resolve fields)).map (joinD d) := by
    rw [hcons]; exact cartKeys_eq_map_joinD d f rest
  have hoc : ∀ fl ∈ enumeratePossibleFieldValues resolve fields, ∀ o ∈ fl, optClean d o := by
    intro fl hfl o ho
    rcases List.mem_map.mp hfl with ⟨fi, hfi, rfl⟩
    exact fieldOptions_clean (hclean fi hfi) o ho
  have hlenf : (enumeratePossibleFieldValues resolve fields).length = fields.length := by
    simp [enumeratePossibleFieldValues]
  have hfact : ∀ x ∈ cartKeys d (enumeratePossibleFieldValues resolve fields),
      (splitCh d x).length = fields.length ∧ wcCount d x = starsKey x := by
    intro x hx
    rw [hgen] at hx
    rcases List.mem_map.mp hx with ⟨ps, hps, rfl⟩
    have hf2 := mem_cartList.mp hps
    have hlen : ps.length = (enumeratePossibleFieldValues resolve fields).length :=
      List.Forall₂.length_eq hf2
    have hpclean : ∀ p ∈ ps, optClean d p := by
      intro p hp
      rcases forall₂_mem_left hf2 hp with ⟨fl, hfl, hpfl⟩
      exact hoc fl hfl p hpfl
    have hpsne : ps ≠ [] := by
      intro e
      subst e
      rw [List.length_nil] at hlen
      exact hoptsne (List.length_eq_zero.mp hlen.symm)
    have hsplit : splitCh d (joinD d ps) = ps :=
      splitCh_joinD hpsne (fun p hp => optClean_not_mem hd (hpclean p hp))
    refine ⟨by rw [hsplit, hlen, hlenf], ?_⟩
    rw [wcCount, hsplit, starsKey_joinD hd ps, sum_starsKey_eq_count hpclean]
  have hperm := perm_stableSortByKey starsKey (cartKeys d (enumeratePossibleFieldValues resolve fields))
  have hmeml : ∀ x ∈ generatePossibleEnumerations (enumeratePossibleFieldValues resolve fields) d,
      x ∈ cartKeys d (enumeratePossibleFieldValues resolve fields) := by
    intro x hx
    exact hperm.mem_iff.mp hx
  refine ⟨hgen, ?_, ?_, ?_⟩
  · intro x hx
    exact (hfact x (hmeml x hx)).1
  · have hp := pairwise_stableSortByKey starsKey
      (cartKeys d (enumeratePossibleFieldValues resolve fields))
    refine List.Pairwise.imp_of_mem ?_ hp
    intro a b ha hb hle
    rw [(hfact a (hmeml a ha)).2, (hfact b (hmeml b hb)).2]
    exact hle
  · intro c
    have h1 : (generatePossibleEnumerations (enumeratePossibleFieldValues resolve fields) d).filter
        (fun x => decide (wcCount d x = c)) =
        (generatePossibleEnumerations (enumeratePossibleFieldValues resolve fields) d).filter
        (fun x => decide (starsKey x = c)) := by
      refine List.filter_congr ?_
      intro x hx
      rw [(hfact x (hmeml x hx)).2]
    have h2 : (cartKeys d (enumeratePossibleFieldValues resolve fields)).filter
        (fun x => decide (wcCount d x = c)) =
        (cartKeys d (enumeratePossibleFieldValues resolve fields)).filter
        (fun x => decide (starsKey x = c)) := by
      refine List.filter_congr ?_
      intro x hx
      rw [(hfact x hx).2]
    rw [h1, h2]
    exact filter_stableSortByKey starsKey c _

/-- C1 (amended) witness: with fields mediaType and size resolving to banner
and 300x250 and the default delimiter, the hypotheses hold and the four
conclusions follow. -/
theorem C1_candidate_generation_witness :
    cartKeys '|' (enumeratePossibleFieldValues
        (fun f => if f = FieldN.named (jsStr "mediaType") then jsStr "banner" else jsStr "300x250")
        [FieldN.named (jsStr "mediaType"), FieldN.named (jsStr "size")]) =
      (cartList (enumeratePossibleFieldValues
        (fun f => if f = FieldN.named (jsStr "mediaType") then jsStr "banner" else jsStr "300x250")
        [FieldN.named (jsStr "mediaType"), FieldN.named (jsStr "size")])).map (joinD '|')
    ∧ (∀ x ∈ generatePossibleEnumerations (enumeratePossibleFieldValues
        (fun f => if f = FieldN.named (jsStr "mediaType") then jsStr "banner" else jsStr "300x250")
        [FieldN.named (jsStr "mediaType"), FieldN.named (jsStr "size")]) '|',
        (splitCh '|' x).length = [FieldN.named (jsStr "mediaType"), FieldN.named (jsStr "size")].length)
    ∧ (generatePossibleEnumerations (enumeratePossibleFieldValues
        (fun f => if f = FieldN.named (jsStr "mediaType") then jsStr "banner" else jsStr "300x250")
        [FieldN.named (jsStr "mediaType"), FieldN.named (jsStr "size")]) '|').Pairwise
        (fun a b => wcCount '|' a ≤ wcCount '|' b)
    ∧ (∀ c : ℕ,
        (generatePossibleEnumerations (enumeratePossibleFieldValues
          (fun f => if f = FieldN.named (jsStr "mediaType") then jsStr "banner" else jsStr "300x250")
          [FieldN.named (jsStr "mediaType"), FieldN.named (jsStr "size")]) '|').filter
            (fun x => decide (wcCount '|' x = c)) =
          (cartKeys '|' (enumeratePossibleFieldValues
            (fun f => if f = FieldN.named (jsStr "mediaType") then jsStr "banner" else jsStr "300x250")
            [FieldN.named (jsStr "mediaType"), FieldN.named (jsStr "size")])).filter
            (fun x => decide (wcCount '|' x = c))) :=
  C1_candidate_generation
    (fun f => if f = FieldN.named (jsStr "mediaType") then jsStr "banner" else jsStr "300x250")
    [FieldN.named (jsStr "mediaType"), FieldN.named (jsStr "size")] '|'
    (by decide) (by decide) (by decide)

/-! Lemmas about the memoization map. -/

theorem jsLookup_append_self {α : Type} {xs : List (JsStr × α)} {k : JsStr} {v : α}
    (h : jsLookup xs k = none) : jsLookup (xs ++ [(k, v)]) k = some v := by
  induction xs with
  | nil => simp [jsLookup]
  | cons p t ih =>
    by_cases hp : p.1 = k
    · exfalso
      simp [jsLookup, List.find?_cons, hp] at h
    · simp only [jsLookup, List.cons_append, List.find?_cons, hp, decide_eq_true_eq,
        if_false, decide_False] at h ⊢
      exact ih h

theorem getFirstMatchingFloor_memo_hit (fd : AuctionCatalog) (resolve : FieldN → JsStr)
    (rfm : Option ℚ) (R : MatchResult)
    (hne : enumeratePossibleFieldValues resolve fd.fields ≠ [])
    (hhit : jsLookup fd.matchingInputs
      (matchingInputKey (enumeratePossibleFieldValues resolve fd.fields)) = some R) :
    getFirstMatchingFloor fd resolve rfm = { result := R, data := fd, enumerated := false } := by
  have hempty : (enumeratePossibleFieldValues resolve fd.fields).isEmpty = false := by
    cases h : enumeratePossibleFieldValues resolve fd.fields with
    | nil => exact absurd h hne
    | cons a t => rfl
  simp only [getFirstMatchingFloor, hempty, Bool.false_eq_true, if_false, hhit]

/-- C4 is refuted on the code: the memoization key is joined with a literal
hyphen, not with the catalog delimiter.  With delimiter bar and resolved
exact values banner and 300x250, the memo written by a match holds the
hyphen-joined key and no entry under the delimiter-joined key. -/
theorem C4_counterexample :
    jsLookup (getFirstMatchingFloor
        { fields := [FieldN.named (jsStr "mediaType"), FieldN.named (jsStr "size")],
          delimiter := some '|',
          values := [(jsStr "banner|300x250", 3 / 2)],
          floorMinQ := none, metaDefaultRule := none, currency := jsStr "USD",
          matchingInputs := [] }
        (fun f => if f = FieldN.named (jsStr "mediaType") then jsStr "banner" else jsStr "300x250")
        none).data.matchingInputs (jsStr "banner|300x250") = none
    ∧ (jsLookup (getFirstMatchingFloor
        { fields := [FieldN.named (jsStr "mediaType"), FieldN.named (jsStr "size")],
          delimiter := some '|',
          values := [(jsStr "banner|300x250", 3 / 2)],
          floorMinQ := none, metaDefaultRule := none, currency := jsStr "USD",
          matchingInputs := [] }
        (fun f => if f = FieldN.named (jsStr "mediaType") then jsStr "banner" else jsStr "300x250")
        none).data.matchingInputs (jsStr "banner-300x250")).isSome = true := by
  decide

/-- C4 (amended): the memoization key joins the first (exact) resolved value
of every field with a literal hyphen (not the catalog delimiter); a second
match against the same catalog with identical resolved exact field values is
served from the memo: it returns a structurally equal MatchResult, leaves
the catalog unchanged and performs no re-enumeration. -/
theorem C4_memoization (fd : AuctionCatalog) (resolve : FieldN → JsStr) (rfm : Option ℚ)
    (hne : enumeratePossibleFieldValues resolve fd.fields ≠ [])
    (hmiss : jsLookup fd.matchingInputs
      (matchingInputKey (enumeratePossibleFieldValues resolve fd.fields)) = none) :
    (getFirstMatchingFloor fd resolve rfm).enumerated = true
    ∧ jsLookup (getFirstMatchingFloor fd resolve rfm).data.matchingInputs
        (matchingInputKey (enumeratePossibleFieldValues resolve fd.fields)) =
        some (getFirstMatchingFloor fd resolve rfm).result
    ∧ getFirstMatchingFloor (getFirstMatchingFloor fd resolve rfm).data resolve rfm =
        { result := (getFirstMatchingFloor fd resolve rfm).result,
          data := (getFirstMatchingFloor fd resolve rfm).data,
          enumerated := false } := by
  have hempty : (enumeratePossibleFieldValues resolve fd.fields).isEmpty = false := by
    cases h : enumeratePossibleFieldValues resolve fd.fields with
    | nil => exact absurd h hne
    | cons a t => rfl
  have h1 : getFirstMatchingFloor fd resolve rfm =
      { result := (getFirstMatchingFloor fd resolve rfm).result,
        data := { fd with matchingInputs := fd.matchingInputs ++
          [(matchingInputKey (enumeratePossibleFieldValues resolve fd.fields),
            (getFirstMatchingFloor fd resolve rfm).result)] },
        enumerated := true } := by
    simp only [getFirstMatchingFloor, hempty, Bool.false_eq_true, if_false, hmiss]
  have hlook : jsLookup (getFirstMatchingFloor fd resolve rfm).data.matchingInputs
      (matchingInputKey (enumeratePossibleFieldValues resolve fd.fields)) =
      some (getFirstMatchingFloor fd resolve rfm).result := by
    rw [h1]
    exact jsLookup_append_self hmiss
  refine ⟨by rw [h1], hlook, ?_⟩
  have hfields : (getFirstMatchingFloor fd resolve rfm).data.fields = fd.fields := by
    rw [h1]
  have hne2 : enumeratePossibleFieldValues resolve
      (getFirstMatchingFloor fd resolve rfm).data.fields ≠ [] := by
    rw [hfields]; exact hne
  have hhit2 : jsLookup (getFirstMatchingFloor fd resolve rfm).data.matchingInputs
      (matchingInputKey (enumeratePossibleFieldValues resolve
        (getFirstMatchingFloor fd resolve rfm).data.fields)) =
      some (getFirstMatchingFloor fd resolve rfm).result := by
    rw [hfields]; exact hlook
  exact getFirstMatchingFloor_memo_hit _ resolve rfm _ hne2 hhit2

/-- C4 (amended) witness: a concrete catalog and context satisfying the
hypotheses, with the three conclusions instantiated. -/
theorem C4_memoization_witness :
    (getFirstMatchingFloor
        { fields := [FieldN.named (jsStr "mediaType")], delimiter := some '|',
          values := [(jsStr "banner", 1)], floorMinQ := none, metaDefaultRule := none,
          currency := jsStr "USD", matchingInputs := [] }
        (fun _ => jsStr "banner") none).enumerated = true
    ∧ jsLookup (getFirstMatchingFloor
        { fields := [FieldN.named (jsStr "mediaType")], delimiter := some '|',
          values := [(jsStr "banner", 1)], floorMinQ := none, metaDefaultRule := none,
          currency := jsStr "USD", matchingInputs := [] }
        (fun _ => jsStr "banner") none).data.matchingInputs
        (matchingInputKey (enumeratePossibleFieldValues (fun _ => jsStr "banner")
          [FieldN.named (jsStr "mediaType")])) =
        some (getFirstMatchingFloor
        { fields := [FieldN.named (jsStr "mediaType")], delimiter := some '|',
          values := [(jsStr "banner", 1)], floorMinQ := none, metaDefaultRule := none,
          currency := jsStr "USD", matchingInputs := [] }
        (fun _ => jsStr "banner") none).result
    ∧ getFirstMatchingFloor (getFirstMatchingFloor
        { fields := [FieldN.named (jsStr "mediaType")], delimiter := some '|',
          values := [(jsStr "banner", 1)], floorMinQ := none, metaDefaultRule := none,
          currency := jsStr "USD", matchingInputs := [] }
        (fun _ => jsStr "banner") none).data (fun _ => jsStr "banner") none =
        { result := (getFirstMatchingFloor
            { fields := [FieldN.named (jsStr "mediaType")], delimiter := some '|',
              values := [(jsStr "banner", 1)], floorMinQ := none, metaDefaultRule := none,
              currency := jsStr "USD", matchingInputs := [] }
            (fun _ => jsStr "banner") none).result,
          data := (getFirstMatchingFloor
            { fields := [FieldN.named (jsStr "mediaType")], delimiter := some '|',
              values := [(jsStr "banner", 1)], floorMinQ := none, metaDefaultRule := none,
              currency := jsStr "USD", matchingInputs := [] }
            (fun _ => jsStr "banner") none).data,
          enumerated := false } :=
  C4_memoization
    { fields := [FieldN.named (jsStr "mediaType")], delimiter := some '|',
      values := [(jsStr "banner", 1)], floorMinQ := none, metaDefaultRule := none,
      currency := jsStr "USD", matchingInputs := [] }
    (fun _ => jsStr "banner") none (by decide) (by decide)

/-- C5 (confirmed): on a fresh (non-memoized) match in which some candidate
key is found among the catalog values, the resolved floor is the maximum of
the effective floorMin and the matched rule floor, where the effective
floorMin is the request-scoped override when present and otherwise the
catalog floorMin defaulting to zero; and the reported matching rule is
undefined exactly when the matched key equals the synthesized default
rule. -/
theorem C5_resolved_floor (fd : AuctionCatalog) (resolve : FieldN → JsStr) (rfm : Option ℚ)
    (k : JsStr)
    (hne : enumeratePossibleFieldValues resolve fd.fields ≠ [])
    (hmiss : jsLookup fd.matchingInputs
      (matchingInputKey (enumeratePossibleFieldValues resolve fd.fields)) = none)
    (hfind : (generatePossibleEnumerations (enumeratePossibleFieldValues resolve fd.fields)
        (fd.delimiter.getD '|')).find?
        (fun hashValue => (jsLookup fd.values hashValue).isSome) = some k) :
    ∃ v, jsLookup fd.values k = some v
      ∧ (getFirstMatchingFloor fd resolve rfm).result.matchingFloor =
          some (max (rfm.getD (fd.floorMinQ.getD 0)) v)
      ∧ (getFirstMatchingFloor fd resolve rfm).result.floorMin = rfm.getD (fd.floorMinQ.getD 0)
      ∧ (getFirstMatchingFloor fd resolve rfm).result.matchingRule =
          (if some k = fd.metaDefaultRule then none else some k) := by
  have hempty : (enumeratePossibleFieldValues resolve fd.fields).isEmpty = false := by
    cases h : enumeratePossibleFieldValues resolve fd.fields with
    | nil => exact absurd h hne
    | cons a t => rfl
  have hk := List.find?_some hfind
  rcases Option.isSome_iff_exists.mp (by simpa using hk) with ⟨v, hv⟩
  refine ⟨v, hv, ?_⟩
  simp only [getFirstMatchingFloor, hempty, Bool.false_eq_true, if_false, hmiss, hfind,
    jsIndexOpt, Option.getD_some, hv, jsMaxQ]
  exact ⟨trivial, trivial, trivial⟩

/-- C5 witness: a concrete catalog with a matched non-default rule and a
request floorMin override. -/
theorem C5_resolved_floor_witness :
    ∃ v, jsLookup [(jsStr "banner", (2 : ℚ))] (jsStr "banner") = some v
      ∧ (getFirstMatchingFloor
          { fields := [FieldN.named (jsStr "mediaType")], delimiter := some '|',
            values := [(jsStr "banner", 2)], floorMinQ := some (1 / 2),
            metaDefaultRule := some (jsStr "*"), currency := jsStr "USD",
            matchingInputs := [] }
          (fun _ => jsStr "banner") (some 3)).result.matchingFloor =
          some (max ((some (3 : ℚ)).getD ((some (1 / 2 : ℚ)).getD 0)) v)
      ∧ (getFirstMatchingFloor
          { fields := [FieldN.named (jsStr "mediaType")], delimiter := some '|',
            values := [(jsStr "banner", 2)], floorMinQ := some (1 / 2),
            metaDefaultRule := some (jsStr "*"), currency := jsStr "USD",
            matchingInputs := [] }
          (fun _ => jsStr "banner") (some 3)).result.floorMin =
          (some (3 : ℚ)).getD ((some (1 / 2 : ℚ)).getD 0)
      ∧ (getFirstMatchingFloor
          { fields := [FieldN.named (jsStr "mediaType")], delimiter := some '|',
            values := [(jsStr "banner", 2)], floorMinQ := some (1 / 2),
            metaDefaultRule := some (jsStr "*"), currency := jsStr "USD",
            matchingInputs := [] }
          (fun _ => jsStr "banner") (some 3)).result.matchingRule =
          (if some (jsStr "banner") = some (jsStr "*") then none else some (jsStr "banner")) :=
  C5_resolved_floor
    { fields := [FieldN.named (jsStr "mediaType")], delimiter := some '|',
      values := [(jsStr "banner", 2)], floorMinQ := some (1 / 2),
      metaDefaultRule := some (jsStr "*"), currency := jsStr "USD", matchingInputs := [] }
    (fun _ => jsStr "banner") (some 3) (jsStr "banner")
    (by decide) (by decide) (by decide)

/-- C10 is refuted on the code: when no generated candidate is present in
the catalog values, the undefined matching rule is coerced by the property
read values[matchingRule] to the literal string undefined, so a catalog that
happens to carry a rule keyed undefined yields that rule floor instead of
NaN.  Concretely, the candidates banner and the wildcard are both absent,
yet the matching floor is two and getFloor returns a non-empty result. -/
theorem C10_counterexample :
    (∀ k ∈ generatePossibleEnumerations
        (enumeratePossibleFieldValues (fun _ => jsStr "banner")
          [FieldN.named (jsStr "mediaType")]) '|',
        jsLookup [(jsStr "undefined", (2 : ℚ))] k = none)
    ∧ (getFirstMatchingFloor
        { fields := [FieldN.named (jsStr "mediaType")], delimiter := some '|',
          values := [(jsStr "undefined", 2)], floorMinQ := none, metaDefaultRule := none,
          currency := jsStr "USD", matchingInputs := [] }
        (fun _ => jsStr "banner") none).result.matchingFloor = some 2
    ∧ (getFloor (some
        { data :=
            { fields := [FieldN.named (jsStr "mediaType")], delimiter := some '|',
              values := [(jsStr "undefined", 2)], floorMinQ := none, metaDefaultRule := none,
              currency := jsStr "USD", matchingInputs := [] },
          skipped := false, enfEnforceJS := some true, enfFloorDeals := some false,
          enfBidAdjustment := false })
        (fun _ => jsStr "banner") none none (fun _ _ _ => none) none (fun _ => 0)).isSome =
        true := by
  decide

/-- C10 (amended): when the catalog has a non-empty field list, the match
for this context is not memoized, no generated candidate key is present in
the catalog values, and no rule is keyed by the literal string undefined,
the matching floor is NaN (hence falsy), getFloor returns the empty object
and the enforcement hook passes the bid through unchanged, for every
catalog floorMin and request floorMin override. -/
theorem C10_no_match (fd : AuctionFloorData) (resolve : FieldN → JsStr) (rfm : Option ℚ)
    (reqCurrency : Option JsStr) (convert : ℚ → JsStr → JsStr → Option ℚ)
    (inverseFn : Option (ℚ → ℚ)) (cpmAdj : ℚ → ℚ) (bid : BidResp)
    (hskip : fd.skipped = false)
    (hne : enumeratePossibleFieldValues resolve fd.data.fields ≠ [])
    (hmiss : jsLookup fd.data.matchingInputs
      (matchingInputKey (enumeratePossibleFieldValues resolve fd.data.fields)) = none)
    (hnone : ∀ k ∈ generatePossibleEnumerations (enumeratePossibleFieldValues resolve fd.data.fields)
        (fd.data.delimiter.getD '|'), jsLookup fd.data.values k = none)
    (hundef : jsLookup fd.data.values (jsStr "undefined") = none) :
    (getFirstMatchingFloor fd.data resolve rfm).result.matchingFloor = none
    ∧ getFloor (some fd) resolve rfm reqCurrency convert inverseFn cpmAdj = none
    ∧ addBidResponseHook (some fd) resolve rfm convert cpmAdj bid =
        HookOutcome.continueWith bid none := by
  have hempty : (enumeratePossibleFieldValues resolve fd.data.fields).isEmpty = false := by
    cases h : enumeratePossibleFieldValues resolve fd.data.fields with
    | nil => exact absurd h hne
    | cons a t => rfl
  have hfind : (generatePossibleEnumerations (enumeratePossibleFieldValues resolve fd.data.fields)
      (fd.data.delimiter.getD '|')).find?
      (fun hashValue => (jsLookup fd.data.values hashValue).isSome) = none := by
    refine List.find?_eq_none.mpr ?_
    intro k hk
    simp [hnone k hk]
  have hfloor : (getFirstMatchingFloor fd.data resolve rfm).result.matchingFloor = none := by
    simp only [getFirstMatchingFloor, hempty, Bool.false_eq_true, if_false, hmiss, hfind,
      jsIndexOpt, Option.getD_none, hundef, jsMaxQ]
  have htruthy : truthyQ (getFirstMatchingFloor fd.data resolve rfm).result.matchingFloor = false := by
    rw [hfloor]; rfl
  refine ⟨hfloor, ?_, ?_⟩
  · simp [getFloor, hskip, hfloor, truthyQ]
  · simp [addBidResponseHook, hskip, htruthy]

/-- C10 (amended) witness: a concrete unmatched context with a positive
catalog floorMin and a positive request override still yields no floor. -/
theorem C10_no_match_witness :
    (getFirstMatchingFloor
        { fields := [FieldN.named (jsStr "mediaType")], delimiter := some '|',
          values := [(jsStr "video", 1)], floorMinQ := some 3, metaDefaultRule := none,
          currency := jsStr "USD", matchingInputs := [] }
        (fun _ => jsStr "banner") (some 4)).result.matchingFloor = none
    ∧ getFloor (some
        { data :=
            { fields := [FieldN.named (jsStr "mediaType")], delimiter := some '|',
              values := [(jsStr "video", 1)], floorMinQ := some 3, metaDefaultRule := none,
              currency := jsStr "USD", matchingInputs := [] },
          skipped := false, enfEnforceJS := some true, enfFloorDeals := some false,
          enfBidAdjustment := true })
        (fun _ => jsStr "banner") (some 4) none (fun _ _ _ => none) none (fun q => q) = none
    ∧ addBidResponseHook (some
        { data :=
            { fields := [FieldN.named (jsStr "mediaType")], delimiter := some '|',
              values := [(jsStr "video", 1)], floorMinQ := some 3, metaDefaultRule := none,
              currency := jsStr "USD", matchingInputs := [] },
          skipped := false, enfEnforceJS := some true, enfFloorDeals := some false,
          enfBidAdjustment := true })
        (fun _ => jsStr "banner") (some 4) (fun _ _ _ => none) (fun q => q)
        { cpm := 1, currency := some (jsStr "USD"), originalCurrency := none,
          originalCpm := 1, dealId := none } =
        HookOutcome.continueWith
          { cpm := 1, currency := some (jsStr "USD"), originalCurrency := none,
            originalCpm := 1, dealId := none } none :=
  C10_no_match
    { data :=
        { fields := [FieldN.named (jsStr "mediaType")], delimiter := some '|',
          values := [(jsStr "video", 1)], floorMinQ := some 3, metaDefaultRule := none,
          currency := jsStr "USD", matchingInputs := [] },
      skipped := false, enfEnforceJS := some true, enfFloorDeals := some false,
      enfBidAdjustment := true }
    (fun _ => jsStr "banner") (some 4) none (fun _ _ _ => none) none (fun q => q)
    { cpm := 1, currency := some (jsStr "USD"), originalCurrency := none,
      originalCpm := 1, dealId := none }
    (by decide) (by decide) (by decide) (by decide) (by decide)

/-- C2 (confirmed): for a bid processed with resolved, non-skipped floor
data, a truthy matched floor and a successful currency normalization, the
hook rejects the bid with the fixed floor-not-met reason exactly when
JS-side enforcement is not disabled, the adjusted cpm is strictly below the
matched floor, and deal enforcement is on or the bid carries no (truthy)
deal id; otherwise the bid continues through the response pipeline (with its
floor context attached). -/
theorem C2_enforcement (fd : AuctionFloorData) (resolve : FieldN → JsStr) (rfm : Option ℚ)
    (convert : ℚ → JsStr → JsStr → Option ℚ) (cpmAdj : ℚ → ℚ) (bid : BidResp) (a : ℚ)
    (hskip : fd.skipped = false)
    (htruthy : truthyQ (getFirstMatchingFloor fd.data resolve rfm).result.matchingFloor = true)
    (hconv : currencyAdjustedCpm convert (jsToUpper fd.data.currency) bid = some a) :
    (addBidResponseHook (some fd) resolve rfm convert cpmAdj bid =
        HookOutcome.rejectWith RejectReason.floorNotMet bid
          (some (addFloorDataToBid fd (getFirstMatchingFloor fd.data resolve rfm).result
            (cpmAdj a)))
      ↔ (fd.enfEnforceJS ≠ some false
          ∧ jsLtQ (cpmAdj a) (getFirstMatchingFloor fd.data resolve rfm).result.matchingFloor = true
          ∧ (fd.enfFloorDeals = some true ∨ jsFalsyStr bid.dealId = true)))
    ∧ (¬ (fd.enfEnforceJS ≠ some false
          ∧ jsLtQ (cpmAdj a) (getFirstMatchingFloor fd.data resolve rfm).result.matchingFloor = true
          ∧ (fd.enfFloorDeals = some true ∨ jsFalsyStr bid.dealId = true)) →
        addBidResponseHook (some fd) resolve rfm convert cpmAdj bid =
          HookOutcome.continueWith bid
            (some (addFloorDataToBid fd (getFirstMatchingFloor fd.data resolve rfm).result
              (cpmAdj a)))) := by
  have hhook : addBidResponseHook (some fd) resolve rfm convert cpmAdj bid =
      (if shouldFloorBid fd (getFirstMatchingFloor fd.data resolve rfm).result
            (addFloorDataToBid fd (getFirstMatchingFloor fd.data resolve rfm).result (cpmAdj a))
            bid.dealId then
        HookOutcome.rejectWith RejectReason.floorNotMet bid
          (some (addFloorDataToBid fd (getFirstMatchingFloor fd.data resolve rfm).result
            (cpmAdj a)))
      else
        HookOutcome.continueWith bid
          (some (addFloorDataToBid fd (getFirstMatchingFloor fd.data resolve rfm).result
            (cpmAdj a)))) := by
    simp [addBidResponseHook, hskip, htruthy, hconv]
  have hiff : shouldFloorBid fd (getFirstMatchingFloor fd.data resolve rfm).result
      (addFloorDataToBid fd (getFirstMatchingFloor fd.data resolve rfm).result (cpmAdj a))
      bid.dealId = true
      ↔ (fd.enfEnforceJS ≠ some false
          ∧ jsLtQ (cpmAdj a) (getFirstMatchingFloor fd.data resolve rfm).result.matchingFloor = true
          ∧ (fd.enfFloorDeals = some true ∨ jsFalsyStr bid.dealId = true)) := by
    simp [shouldFloorBid, addFloorDataToBid, and_assoc]
  constructor
  · rw [hhook]
    by_cases hsf : shouldFloorBid fd (getFirstMatchingFloor fd.data resolve rfm).result
        (addFloorDataToBid fd (getFirstMatchingFloor fd.data resolve rfm).result (cpmAdj a))
        bid.dealId = true
    · simp only [hsf, if_true]
      exact iff_of_true trivial (hiff.mp hsf)
    · simp only [hsf, if_false, Bool.false_eq_true]
      refine iff_of_false ?_ (fun h => hsf (hiff.mpr h))
      intro h
      cases h
  · intro hnot
    rw [hhook, if_neg (fun h => hnot (hiff.mp h))]

/-- C2 witness: a bid strictly below the matched banner floor of 1 with
default enforcement flags and no deal id is rejected with the floor-not-met
reason and the floor context attached. -/
theorem C2_enforcement_witness :
    addBidResponseHook (some bannerFD) bannerResolve none noConvert (fun q => q) lowBid =
      HookOutcome.rejectWith RejectReason.floorNotMet lowBid
        (some (addFloorDataToBid bannerFD
          (getFirstMatchingFloor bannerFD.data bannerResolve none).result
          ((fun (q : ℚ) => q) 0))) :=
  ((C2_enforcement bannerFD bannerResolve none noConvert (fun q => q) lowBid 0
    (by decide) (by decide) (by decide)).1).mpr (by decide)

/-- C7 is refuted on the code: a matched rule whose floor value is exactly
zero does not enter enforcement; the resulting matching floor zero is falsy,
so the hook passes the bid through without attaching any floor context. -/
theorem C7_counterexample :
    (generatePossibleEnumerations
        (enumeratePossibleFieldValues (fun _ => jsStr "banner")
          [FieldN.named (jsStr "mediaType")]) '|').find?
        (fun hashValue => (jsLookup [(jsStr "banner", (0 : ℚ))] hashValue).isSome) =
      some (jsStr "banner")
    ∧ (getFirstMatchingFloor
        { fields := [FieldN.named (jsStr "mediaType")], delimiter := some '|',
          values := [(jsStr "banner", 0)], floorMinQ := none, metaDefaultRule := none,
          currency := jsStr "USD", matchingInputs := [] }
        (fun _ => jsStr "banner") none).result.matchingFloor = some 0
    ∧ addBidResponseHook (some
        { data :=
            { fields := [FieldN.named (jsStr "mediaType")], delimiter := some '|',
              values := [(jsStr "banner", 0)], floorMinQ := none, metaDefaultRule := none,
              currency := jsStr "USD", matchingInputs := [] },
          skipped := false, enfEnforceJS := some true, enfFloorDeals := some false,
          enfBidAdjustment := true })
        (fun _ => jsStr "banner") none (fun _ _ _ => none) (fun q => q)
        { cpm := -1, currency := some (jsStr "USD"), originalCurrency := none,
          originalCpm := -1, dealId := none } =
        HookOutcome.continueWith
          { cpm := -1, currency := some (jsStr "USD"), originalCurrency := none,
            originalCpm := -1, dealId := none } none := by
  decide

/-- C7 (amended): with resolved non-skipped floor data, the hook enters
enforcement exactly when the resolved matching floor is truthy (non-zero and
not NaN): a falsy matching floor, including both a failed match and a
matched floor of exactly zero, passes the bid through without floor context;
a truthy matched floor with successful currency normalization always
attaches the full floor context to the bid, whether it is ultimately
accepted or rejected. -/
theorem C7_floor_context (fd : AuctionFloorData) (resolve : FieldN → JsStr) (rfm : Option ℚ)
    (convert : ℚ → JsStr → JsStr → Option ℚ) (cpmAdj : ℚ → ℚ) (bid : BidResp) (a : ℚ)
    (hskip : fd.skipped = false) :
    (truthyQ (getFirstMatchingFloor fd.data resolve rfm).result.matchingFloor = false →
      addBidResponseHook (some fd) resolve rfm convert cpmAdj bid =
        HookOutcome.continueWith bid none)
    ∧ (truthyQ (getFirstMatchingFloor fd.data resolve rfm).result.matchingFloor = true →
       currencyAdjustedCpm convert (jsToUpper fd.data.currency) bid = some a →
       (addBidResponseHook (some fd) resolve rfm convert cpmAdj bid =
          HookOutcome.continueWith bid
            (some (addFloorDataToBid fd (getFirstMatchingFloor fd.data resolve rfm).result
              (cpmAdj a)))
        ∨ addBidResponseHook (some fd) resolve rfm convert cpmAdj bid =
            HookOutcome.rejectWith RejectReason.floorNotMet bid
              (some (addFloorDataToBid fd (getFirstMatchingFloor fd.data resolve rfm).result
                (cpmAdj a))))) := by
  constructor
  · intro hfalse
    simp [addBidResponseHook, hskip, hfalse]
  · intro htrue hconv
    have hhook : addBidResponseHook (some fd) resolve rfm convert cpmAdj bid =
        (if shouldFloorBid fd (getFirstMatchingFloor fd.data resolve rfm).result
              (addFloorDataToBid fd (getFirstMatchingFloor fd.data resolve rfm).result (cpmAdj a))
              bid.dealId then
          HookOutcome.rejectWith RejectReason.floorNotMet bid
            (some (addFloorDataToBid fd (getFirstMatchingFloor fd.data resolve rfm).result
              (cpmAdj a)))
        else
          HookOutcome.continueWith bid
            (some (addFloorDataToBid fd (getFirstMatchingFloor fd.data resolve rfm).result
              (cpmAdj a)))) := by
      simp [addBidResponseHook, hskip, htrue, hconv]
    rw [hhook]
    by_cases hsf : shouldFloorBid fd (getFirstMatchingFloor fd.data resolve rfm).result
        (addFloorDataToBid fd (getFirstMatchingFloor fd.data resolve rfm).result (cpmAdj a))
        bid.dealId = true
    · exact Or.inr (by rw [if_pos hsf])
    · exact Or.inl (by rw [if_neg hsf])

/-- C7 (amended) witness: a 2 USD bid over the matched truthy banner floor
either continues or is rejected, in both cases with the full floor context
attached. -/
theorem C7_floor_context_witness :
    addBidResponseHook (some bannerFD) bannerResolve none noConvert (fun q => q) highBid =
        HookOutcome.continueWith highBid
          (some (addFloorDataToBid bannerFD
            (getFirstMatchingFloor bannerFD.data bannerResolve none).result
            ((fun (q : ℚ) => q) 2)))
      ∨ addBidResponseHook (some bannerFD) bannerResolve none noConvert (fun q => q) highBid =
          HookOutcome.rejectWith RejectReason.floorNotMet highBid
            (some (addFloorDataToBid bannerFD
              (getFirstMatchingFloor bannerFD.data bannerResolve none).result
              ((fun (q : ℚ) => q) 2))) :=
  (C7_floor_context bannerFD bannerResolve none noConvert (fun q => q) highBid 2
    (by decide)).2 (by decide) (by decide)

/-- C6 is refuted on the code: the debug query parameter has the highest
priority, not the lowest.  With a debug parameter of 100 and a catalog data
skip rate of 0, the source skips the auction for any draw, while under the
priority order of the claim the applicable rate would be the catalog rate 0
and no draw would skip. -/
theorem C6_counterexample :
    computeSkipped 0 (some 100) (some 0) none = true
    ∧ claimComputeSkipped 0 (some 100) (some 0) none = false := by
  constructor <;>
    norm_num [computeSkipped, claimComputeSkipped, applicableSkipRate, claimSkipRatePriority]

/-- C6 (amended): for a usable catalog the auction is marked skipped exactly
when the uniform draw scaled to [0,100) is strictly below the applicable
skip rate, and the applicable rate is chosen with the debug query parameter
first, then the catalog data skip rate (under nullish coalescing), then the
top-level configured rate. -/
theorem C6_skip_sampling (rand : ℚ) (queryRate dataRate rootRate : Option ℚ) :
    resolveSkipped false rand queryRate dataRate rootRate = true
      ↔ ∃ r, (queryRate = some r
          ∨ (queryRate = none ∧ dataRate = some r)
          ∨ (queryRate = none ∧ dataRate = none ∧ rootRate = some r))
        ∧ rand * 100 < r := by
  cases queryRate <;> cases dataRate <;> cases rootRate <;>
    simp [resolveSkipped, computeSkipped, applicableSkipRate]

/-! Lemmas about the schema validator. -/

theorem validateSchemaFields_iff (allowed : List FieldN) (fields : Option (List FieldN)) :
    validateSchemaFields allowed fields = true
      ↔ ∃ fs, fields = some fs ∧ fs ≠ [] ∧ ∀ f ∈ fs, f ∈ allowed := by
  cases fields with
  | none => simp [validateSchemaFields]
  | some fs =>
    simp [validateSchemaFields, List.isEmpty_iff, List.all_eq_true]

/-- C8 is refuted on the code: an input with no fields array, no rules and a
numeric scalar default is accepted by the version-1 validator, because
normalizeDefault first synthesizes the hidden field and the all-wildcard
default rule. -/
theorem C8_counterexample :
    (modelIsValid allowedFieldsInit
      { schemaFields := none, schemaDelimiter := none, values := none,
        dflt := some (JsVal.num 1), metaDefaultRule := none }).1 = true := by
  decide

/-- C8 (amended): the version-1 validator accepts exactly when, after the
default-normalization step (which may synthesize the hidden field and the
default rule), the fields array is non-empty with every entry in the
allowed-fields set and at least one rule survives the filter keeping
entries whose key splits into exactly fields.length delimiter-separated
segments with a numeric value; on acceptance the surviving rules are exactly
that filter of the normalized values (all other entries silently
dropped). -/
theorem C8_v1_validation (allowed : List FieldN) (m : FloorModel) :
    ((modelIsValid allowed m).1 = true
      ↔ ∃ fs, (normalizeDefault m).schemaFields = some fs ∧ fs ≠ []
          ∧ (∀ f ∈ fs, f ∈ allowed)
          ∧ ∃ vals, (normalizeDefault m).values = some vals
          ∧ vals.filter (fun kv => isValidRule kv.1 kv.2 fs.length
              ((normalizeDefault m).schemaDelimiter.getD '|')) ≠ [])
    ∧ ((modelIsValid allowed m).1 = true →
        ∃ vals, (normalizeDefault m).values = some vals
          ∧ (modelIsValid allowed m).2.values = some (vals.filter (fun kv =>
              isValidRule kv.1 kv.2 ((normalizeDefault m).schemaFields.getD []).length
                ((normalizeDefault m).schemaDelimiter.getD '|')))) := by
  by_cases hv : validateSchemaFields allowed (normalizeDefault m).schemaFields = true
  · have hmodel : modelIsValid allowed m =
        validateRules (normalizeDefault m) ((normalizeDefault m).schemaFields.getD []).length
          ((normalizeDefault m).schemaDelimiter.getD '|') := by
      simp [modelIsValid, hv]
    rcases (validateSchemaFields_iff allowed (normalizeDefault m).schemaFields).mp hv with
      ⟨fs, hfs, hfne, hall⟩
    cases hvals : (normalizeDefault m).values with
    | none =>
      rw [hmodel]
      simp [validateRules, hvals]
    | some vals =>
      rw [hmodel]
      simp only [validateRules, hvals]
      have hlen : ((normalizeDefault m).schemaFields.getD []).length = fs.length := by
        rw [hfs]; rfl
      constructor
      · constructor
        · intro hne
          have hne' : vals.filter (fun kv => isValidRule kv.1 kv.2
              ((normalizeDefault m).schemaFields.getD []).length
              ((normalizeDefault m).schemaDelimiter.getD '|')) ≠ [] := by
            simpa [List.isEmpty_iff] using hne
          refine ⟨fs, hfs, hfne, hall, vals, rfl, ?_⟩
          rw [← hlen]
          exact hne'
        · rintro ⟨fs2, hfs2, _, _, vals2, hv2, hne2⟩
          rw [hfs] at hfs2
          injection hfs2 with hfs2e
          injection hv2 with hv2e
          subst hfs2e
          subst hv2e
          simpa [List.isEmpty_iff, hlen] using hne2
      · intro _
        exact ⟨vals, rfl, rfl⟩
  · have hmodel : modelIsValid allowed m = (false, normalizeDefault m) := by
      simp [modelIsValid, hv]
    rw [hmodel]
    simp only [Bool.false_eq_true, false_iff, false_implies, and_true]
    rintro ⟨fs, hfs, hfne, hall, _⟩
    exact hv ((validateSchemaFields_iff allowed _).mpr ⟨fs, hfs, hfne, hall⟩)

/-- C8 (amended) witness: a concrete accepted model with one surviving and
one dropped rule satisfies the acceptance characterization. -/
theorem C8_v1_validation_witness :
    ∃ fs, (normalizeDefault
        { schemaFields := some [FieldN.named (jsStr "mediaType")], schemaDelimiter := none,
          values := some [(jsStr "banner", JsVal.num 1), (jsStr "bad|key", JsVal.num 2),
            (jsStr "video", JsVal.other)],
          dflt := none, metaDefaultRule := none }).schemaFields = some fs ∧ fs ≠ []
      ∧ (∀ f ∈ fs, f ∈ allowedFieldsInit)
      ∧ ∃ vals, (normalizeDefault
          { schemaFields := some [FieldN.named (jsStr "mediaType")], schemaDelimiter := none,
            values := some [(jsStr "banner", JsVal.num 1), (jsStr "bad|key", JsVal.num 2),
              (jsStr "video", JsVal.other)],
            dflt := none, metaDefaultRule := none }).values = some vals
        ∧ vals.filter (fun kv => isValidRule kv.1 kv.2 fs.length
            ((normalizeDefault
              { schemaFields := some [FieldN.named (jsStr "mediaType")], schemaDelimiter := none,
                values := some [(jsStr "banner", JsVal.num 1), (jsStr "bad|key", JsVal.num 2),
                  (jsStr "video", JsVal.other)],
                dflt := none, metaDefaultRule := none }).schemaDelimiter.getD '|')) ≠ [] :=
  (C8_v1_validation allowedFieldsInit
    { schemaFields := some [FieldN.named (jsStr "mediaType")], schemaDelimiter := none,
      values := some [(jsStr "banner", JsVal.num 1), (jsStr "bad|key", JsVal.num 2),
        (jsStr "video", JsVal.other)],
      dflt := none, metaDefaultRule := none }).1.mp (by decide)

/-! Lemmas for re-validation of an accepted catalog. -/

theorem FloorModel_values_eta (x : FloorModel) (v : Option (List (JsStr × JsVal)))
    (h : x.values = v) : { x with values := v } = x := by
  cases x
  cases h
  rfl

theorem FloorsData_ver_eta (x : FloorsData) (v : Option ℕ)
    (h : x.floorsSchemaVersion = v) : { x with floorsSchemaVersion := v } = x := by
  cases x
  cases h
  rfl

theorem FloorsData_model_eta (x : FloorsData) (mm : FloorModel)
    (h : x.model = mm) : { x with model := mm } = x := by
  cases x
  cases h
  rfl

theorem FloorsData_groups_eta (x : FloorsData) (v : Option ℕ) (g : Option (List ModelGroup))
    (s : Option ℚ) (hv : x.floorsSchemaVersion = v) (hg : x.modelGroups = g)
    (hs : x.modelWeightSum = s) :
    { x with floorsSchemaVersion := v, modelGroups := g, modelWeightSum := s } = x := by
  cases x
  cases hv
  cases hg
  cases hs
  rfl

theorem normalizeDefault_stable (x : FloorModel) (fs : List FieldN)
    (vs : List (JsStr × JsVal)) (hfs : x.schemaFields = some fs) (hfne : fs ≠ [])
    (hvals : x.values = some vs) (hstab : modelDefaultStable x) :
    normalizeDefault x = x := by
  by_cases hnum : isNumberV x.dflt = true
  · have hlen0 : ¬ (x.schemaFields.getD []).length = 0 := by
      rw [hfs]
      exact fun e => hfne (List.length_eq_zero.mp e)
    have hstf : eqNullLoose (jsLookup (x.values.getD []) (defaultRuleOf x)) = false :=
      hstab hnum
    rw [defaultRuleOf] at hstf
    simp only [normalizeDefault, hnum, if_true, hlen0, if_false, hstf,
      Bool.false_eq_true]
    exact FloorModel_values_eta x _ (by rw [hvals]; rfl)
  · simp [normalizeDefault, hnum]

theorem modelIsValid_idem (allowed : List FieldN) (m : FloorModel)
    (h : (modelIsValid allowed m).1 = true)
    (hstab : modelDefaultStable (modelIsValid allowed m).2) :
    modelIsValid allowed ((modelIsValid allowed m).2) = (true, (modelIsValid allowed m).2) := by
  by_cases hv : validateSchemaFields allowed (normalizeDefault m).schemaFields = true
  · rcases (validateSchemaFields_iff _ _).mp hv with ⟨fs, hfs, hfne, hall⟩
    have hmodel : modelIsValid allowed m =
        validateRules (normalizeDefault m) ((normalizeDefault m).schemaFields.getD []).length
          ((normalizeDefault m).schemaDelimiter.getD '|') := by
      simp [modelIsValid, hv]
    cases hvals : (normalizeDefault m).values with
    | none =>
      rw [hmodel] at h
      simp [validateRules, hvals] at h
    | some vs =>
      set m' := (modelIsValid allowed m).2 with hmd
      have hm2 : m' =
          { normalizeDefault m with values := some (vs.filter (fun kv =>
              isValidRule kv.1 kv.2 ((normalizeDefault m).schemaFields.getD []).length
                ((normalizeDefault m).schemaDelimiter.getD '|'))) } := by
        rw [hmd, hmodel]
        simp [validateRules, hvals]
      have hne : vs.filter (fun kv =>
          isValidRule kv.1 kv.2 ((normalizeDefault m).schemaFields.getD []).length
            ((normalizeDefault m).schemaDelimiter.getD '|')) ≠ [] := by
        rw [hmodel] at h
        simp only [validateRules, hvals] at h
        simpa [List.isEmpty_iff] using h
      have hfs2 : m'.schemaFields = some fs := by
        rw [hm2]
        exact hfs
      have hdl2 : m'.schemaDelimiter = (normalizeDefault m).schemaDelimiter := by
        rw [hm2]
      have hvals2 : m'.values = some (vs.filter (fun kv =>
          isValidRule kv.1 kv.2 ((normalizeDefault m).schemaFields.getD []).length
            ((normalizeDefault m).schemaDelimiter.getD '|'))) := by
        rw [hm2]
      have hnd : normalizeDefault m' = m' :=
        normalizeDefault_stable _ fs _ hfs2 hfne hvals2 hstab
      have hv2 : validateSchemaFields allowed (normalizeDefault m').schemaFields = true := by
        rw [hnd]
        exact (validateSchemaFields_iff _ _).mpr ⟨fs, hfs2, hfne, hall⟩
      have hmodel2 : modelIsValid allowed m' =
          validateRules (normalizeDefault m')
            ((normalizeDefault m').schemaFields.getD []).length
            ((normalizeDefault m').schemaDelimiter.getD '|') := by
        simp [modelIsValid, hv2]
      rw [hmodel2, hnd]
      have hlen2 : (m'.schemaFields.getD []).length =
          ((normalizeDefault m).schemaFields.getD []).length := by
        rw [hfs2, hfs]
      rw [hlen2, hdl2]
      simp only [validateRules, hvals2]
      have hff : (vs.filter (fun kv =>
          isValidRule kv.1 kv.2 ((normalizeDefault m).schemaFields.getD []).length
            ((normalizeDefault m).schemaDelimiter.getD '|'))).filter (fun kv =>
          isValidRule kv.1 kv.2 ((normalizeDefault m).schemaFields.getD []).length
            ((normalizeDefault m).schemaDelimiter.getD '|')) =
          vs.filter (fun kv =>
          isValidRule kv.1 kv.2 ((normalizeDefault m).schemaFields.getD []).length
            ((normalizeDefault m).schemaDelimiter.getD '|')) :=
        List.filter_eq_self.mpr (fun a ha => (List.mem_filter.mp ha).2)
      rw [hff]
      have hemp : (vs.filter (fun kv =>
          isValidRule kv.1 kv.2 ((normalizeDefault m).schemaFields.getD []).length
            ((normalizeDefault m).schemaDelimiter.getD '|'))).isEmpty = false := by
        simpa [List.isEmpty_iff] using hne
      rw [hemp]
      rw [FloorModel_values_eta _ _ hvals2]
      rfl
  · simp [modelIsValid, hv] at h

theorem validateGroupsGo_ok_length (allowed : List FieldN) :
    ∀ (gs : List ModelGroup) (acc : ℚ), (validateGroupsGo allowed acc gs).1 = true →
      (validateGroupsGo allowed acc gs).2.1.length = gs.length := by
  intro gs
  induction gs with
  | nil => intro acc _; rfl
  | cons g gs ih =>
    intro acc h
    by_cases hw : isNumberV g.modelWeight = true
    · by_cases hr : (modelIsValid allowed g.model).1 = true
      · simp only [validateGroupsGo, hw, if_true, hr] at h ⊢
        simpa using ih (acc + weightQ g) h
      · simp [validateGroupsGo, hw, hr] at h
    · simp [validateGroupsGo, hw] at h

theorem validateGroupsGo_idem (allowed : List FieldN) :
    ∀ (gs : List ModelGroup) (acc : ℚ), (validateGroupsGo allowed acc gs).1 = true →
      (∀ g ∈ (validateGroupsGo allowed acc gs).2.1, modelDefaultStable g.model) →
      validateGroupsGo allowed acc (validateGroupsGo allowed acc gs).2.1 =
        (true, (validateGroupsGo allowed acc gs).2.1, (validateGroupsGo allowed acc gs).2.2) := by
  intro gs
  induction gs with
  | nil => intro acc _ _; rfl
  | cons g gs ih =>
    intro acc h hstab
    by_cases hw : isNumberV g.modelWeight = true
    · by_cases hr : (modelIsValid allowed g.model).1 = true
      · have hrun : validateGroupsGo allowed acc (g :: gs) =
            ((validateGroupsGo allowed (acc + weightQ g) gs).1,
             { g with model := (modelIsValid allowed g.model).2 } ::
               (validateGroupsGo allowed (acc + weightQ g) gs).2.1,
             (validateGroupsGo allowed (acc + weightQ g) gs).2.2) := by
          simp [validateGroupsGo, hw, hr]
        rw [hrun] at h hstab ⊢
        have h1 : (validateGroupsGo allowed (acc + weightQ g) gs).1 = true := h
        have hstabh : modelDefaultStable (modelIsValid allowed g.model).2 :=
          hstab { g with model := (modelIsValid allowed g.model).2 } (List.mem_cons_self _ _)
        have hstabt : ∀ g2 ∈ (validateGroupsGo allowed (acc + weightQ g) gs).2.1,
            modelDefaultStable g2.model :=
          fun g2 hg2 => hstab g2 (List.mem_cons_of_mem _ hg2)
        have hidem := modelIsValid_idem allowed g.model hr hstabh
        have hih := ih (acc + weightQ g) h1 hstabt
        have hwq : weightQ { g with model := (modelIsValid allowed g.model).2 } = weightQ g := rfl
        simp only [validateGroupsGo, hw, if_true, hidem, hwq, hih]
      · simp [validateGroupsGo, hw, hr] at h
    · simp [validateGroupsGo, hw] at h

theorem revalidate_v1 (allowed : List FieldN) (d2 : FloorsData)
    (hver : d2.floorsSchemaVersion = some 1)
    (hm : modelIsValid allowed d2.model = (true, d2.model)) :
    isFloorsDataValid allowed d2 = (true, d2) := by
  have he := FloorsData_ver_eta d2 _ hver
  have hme := FloorsData_model_eta d2 d2.model rfl
  simp [isFloorsDataValid, hver, he, hm, hme]

theorem revalidate_v2 (allowed : List FieldN) (d2 : FloorsData) (gs : List ModelGroup) (s : ℚ)
    (hver : d2.floorsSchemaVersion = some 2)
    (hgs : d2.modelGroups = some gs) (hne : gs ≠ [])
    (hsum : d2.modelWeightSum = some s)
    (hrun : validateGroupsGo allowed 0 gs = (true, gs, s)) :
    isFloorsDataValid allowed d2 = (true, d2) := by
  have hge := FloorsData_groups_eta d2 _ _ _ hver hgs hsum
  cases gs with
  | nil => exact absurd rfl hne
  | cons g t =>
    simp [isFloorsDataValid, hver, hgs, hrun, hge]

/-- C9 is refuted on the code: re-validating an accepted catalog is accepted
but not idempotent.  When the input carried the all-wildcard default key
with a non-numeric value, the first validation keeps the default untouched
and then drops the bad entry, so the second validation re-adds the default
rule to the values and resets meta.defaultRule: rules and meta change. -/
theorem C9_counterexample :
    (isFloorsDataValid allowedFieldsInit staleDefaultData).1 = true
    ∧ (isFloorsDataValid allowedFieldsInit
        (isFloorsDataValid allowedFieldsInit staleDefaultData).2).1 = true
    ∧ (isFloorsDataValid allowedFieldsInit
        (isFloorsDataValid allowedFieldsInit staleDefaultData).2).2 ≠
        (isFloorsDataValid allowedFieldsInit staleDefaultData).2 := by
  decide

/-- C9 (amended): re-validating a catalog (schema version 1 or 2) that the
validator has accepted accepts it again, and it is idempotent (no rules
dropped or changed, default rule, meta and the recomputed modelWeightSum
unchanged) provided every numeric scalar default of the accepted output
still finds its default-rule key among the surviving values; without that
proviso the second validation may re-add the default rule and reset
meta.defaultRule, as on the counterexample. -/
theorem C9_revalidation (allowed : List FieldN) (d : FloorsData)
    (hacc : (isFloorsDataValid allowed d).1 = true)
    (hstab1 : modelDefaultStable (isFloorsDataValid allowed d).2.model)
    (hstab2 : ∀ gs, (isFloorsDataValid allowed d).2.modelGroups = some gs →
        ∀ g ∈ gs, modelDefaultStable g.model) :
    isFloorsDataValid allowed ((isFloorsDataValid allowed d).2) =
      (true, (isFloorsDataValid allowed d).2) := by
  rcases hvd : d.floorsSchemaVersion with _ | v
  · have hrun : isFloorsDataValid allowed d =
        ((modelIsValid allowed d.model).1,
         { d with floorsSchemaVersion := some 1, model := (modelIsValid allowed d.model).2 }) := by
      simp [isFloorsDataValid, hvd]
    rw [hrun] at hacc hstab1 ⊢
    exact revalidate_v1 allowed _ rfl (modelIsValid_idem allowed d.model hacc hstab1)
  · match v, hvd with
    | 0, hvd =>
      have hrun : isFloorsDataValid allowed d =
          ((modelIsValid allowed d.model).1,
           { d with floorsSchemaVersion := some 1
                    model := (modelIsValid allowed d.model).2 }) := by
        simp [isFloorsDataValid, hvd]
      rw [hrun] at hacc hstab1 ⊢
      exact revalidate_v1 allowed _ rfl (modelIsValid_idem allowed d.model hacc hstab1)
    | 1, hvd =>
      have hrun : isFloorsDataValid allowed d =
          ((modelIsValid allowed d.model).1,
           { d with floorsSchemaVersion := some 1
                    model := (modelIsValid allowed d.model).2 }) := by
        simp [isFloorsDataValid, hvd]
      rw [hrun] at hacc hstab1 ⊢
      exact revalidate_v1 allowed _ rfl (modelIsValid_idem allowed d.model hacc hstab1)
    | 2, hvd =>
      rcases hg : d.modelGroups with _ | gs
      · have hrun : isFloorsDataValid allowed d =
            (false, { d with floorsSchemaVersion := some 2 }) := by
          simp [isFloorsDataValid, hvd, hg]
        rw [hrun] at hacc
        cases hacc
      · cases gs with
        | nil =>
          have hrun : isFloorsDataValid allowed d =
              (false, { d with floorsSchemaVersion := some 2 }) := by
            simp [isFloorsDataValid, hvd, hg]
          rw [hrun] at hacc
          cases hacc
        | cons g t =>
          have hrun : isFloorsDataValid allowed d =
              ((validateGroupsGo allowed 0 (g :: t)).1,
               { d with floorsSchemaVersion := some 2
                        modelGroups := some (validateGroupsGo allowed 0 (g :: t)).2.1
                        modelWeightSum := some (validateGroupsGo allowed 0 (g :: t)).2.2 }) := by
            simp [isFloorsDataValid, hvd, hg]
          rw [hrun] at hacc hstab2 ⊢
          have hok : (validateGroupsGo allowed 0 (g :: t)).1 = true := hacc
          have hlen := validateGroupsGo_ok_length allowed (g :: t) 0 hok
          have hne2 : (validateGroupsGo allowed 0 (g :: t)).2.1 ≠ [] := by
            intro e
            rw [e] at hlen
            cases hlen
          have hstabg : ∀ g2 ∈ (validateGroupsGo allowed 0 (g :: t)).2.1,
              modelDefaultStable g2.model :=
            hstab2 _ rfl
          have hidem := validateGroupsGo_idem allowed (g :: t) 0 hok hstabg
          exact revalidate_v2 allowed _ _ _ rfl rfl hne2 rfl hidem
    | (k + 3), hvd =>
      have hrun : isFloorsDataValid allowed d =
          (false, { d with floorsSchemaVersion := some (k + 3) }) := by
        simp [isFloorsDataValid, hvd]
      rw [hrun] at hacc
      cases hacc

/-- C9 (amended) witness: a concrete version-1 catalog with a stable default
is accepted and re-validates to itself. -/
theorem C9_revalidation_witness :
    isFloorsDataValid allowedFieldsInit
        ((isFloorsDataValid allowedFieldsInit
          { floorsSchemaVersion := none,
            model :=
              { schemaFields := some [FieldN.named (jsStr "mediaType")], schemaDelimiter := none,
                values := some [(jsStr "banner", JsVal.num 2)],
                dflt := some (JsVal.num 1), metaDefaultRule := none },
            modelGroups := none, modelWeightSum := none }).2) =
      (true, (isFloorsDataValid allowedFieldsInit
          { floorsSchemaVersion := none,
            model :=
              { schemaFields := some [FieldN.named (jsStr "mediaType")], schemaDelimiter := none,
                values := some [(jsStr "banner", JsVal.num 2)],
                dflt := some (JsVal.num 1), metaDefaultRule := none },
            modelGroups := none, modelWeightSum := none }).2) :=
  C9_revalidation allowedFieldsInit
    { floorsSchemaVersion := none,
      model :=
        { schemaFields := some [FieldN.named (jsStr "mediaType")], schemaDelimiter := none,
          values := some [(jsStr "banner", JsVal.num 2)],
          dflt := some (JsVal.num 1), metaDefaultRule := none },
      modelGroups := none, modelWeightSum := none }
    (by decide) (by decide) (by decide)

/-! Lemmas about the fetch and delay coordinator. -/

theorem foldl_continue_spec :
    ∀ (q : List HookCfg) (s : CoordState),
      (q.map HookCfg.cid).Nodup → (∀ a ∈ q, a.cid ∉ s.exited) →
      (q.foldl (fun acc h => continueAuction h
          { acc with cancelledTimers := acc.cancelledTimers ++ [h.timer] }) s).resumedLog =
          s.resumedLog ++ q.map (fun a => (a.cid, s.fetchStatus))
      ∧ (q.foldl (fun acc h => continueAuction h
          { acc with cancelledTimers := acc.cancelledTimers ++ [h.timer] }) s).cancelledTimers =
          s.cancelledTimers ++ q.map HookCfg.timer
      ∧ (q.foldl (fun acc h => continueAuction h
          { acc with cancelledTimers := acc.cancelledTimers ++ [h.timer] }) s).exited =
          s.exited ++ q.map HookCfg.cid
      ∧ (q.foldl (fun acc h => continueAuction h
          { acc with cancelledTimers := acc.cancelledTimers ++ [h.timer] }) s).fetching =
          s.fetching
      ∧ (q.foldl (fun acc h => continueAuction h
          { acc with cancelledTimers := acc.cancelledTimers ++ [h.timer] }) s).fetchStatus =
          s.fetchStatus := by
  intro q
  induction q with
  | nil => intro s _ _; simp
  | cons h q ih =>
    intro s hnd hex
    have hcid : h.cid ∉ s.exited := hex h (List.mem_cons_self _ _)
    have hstep : continueAuction h { s with cancelledTimers := s.cancelledTimers ++ [h.timer] } =
        { delayed := s.delayed.filter (fun a => a.timer ≠ h.timer),
          exited := s.exited ++ [h.cid],
          cancelledTimers := s.cancelledTimers ++ [h.timer],
          fetching := s.fetching, fetchStatus := s.fetchStatus,
          resumedLog := s.resumedLog ++ [(h.cid, s.fetchStatus)] } := by
      simp [continueAuction, hcid]
    have hnd2 : (q.map HookCfg.cid).Nodup := (List.nodup_cons.mp hnd).2
    have hhq : h.cid ∉ q.map HookCfg.cid := (List.nodup_cons.mp hnd).1
    have hex2 : ∀ a ∈ q, a.cid ∉
        (continueAuction h { s with cancelledTimers := s.cancelledTimers ++ [h.timer] }).exited := by
      intro a ha
      rw [hstep]
      simp only [List.mem_append, List.mem_singleton]
      rintro (hin | hin)
      · exact hex a (List.mem_cons_of_mem _ ha) hin
      · exact hhq (hin ▸ List.mem_map_of_mem HookCfg.cid ha)
    have := ih (continueAuction h { s with cancelledTimers := s.cancelledTimers ++ [h.timer] })
      hnd2 hex2
    rcases this with ⟨h1, h2, h3, h4, h5⟩
    rw [List.foldl_cons, hstep]
    rw [hstep] at h1 h2 h3 h4 h5
    refine ⟨?_, ?_, ?_, ?_, ?_⟩
    · rw [h1]; simp
    · rw [h2]; simp
    · rw [h3]; simp
    · rw [h4]
    · rw [h5]

theorem resumeDelayedAuctions_spec (s : CoordState)
    (hnd : (s.delayed.map HookCfg.cid).Nodup)
    (hex : ∀ a ∈ s.delayed, a.cid ∉ s.exited) :
    (resumeDelayedAuctions s).resumedLog =
        s.resumedLog ++ s.delayed.map (fun a => (a.cid, s.fetchStatus))
    ∧ (resumeDelayedAuctions s).delayed = []
    ∧ (resumeDelayedAuctions s).cancelledTimers =
        s.cancelledTimers ++ s.delayed.map HookCfg.timer
    ∧ (resumeDelayedAuctions s).exited = s.exited ++ s.delayed.map HookCfg.cid := by
  rcases foldl_continue_spec s.delayed s hnd hex with ⟨h1, h2, h3, _, _⟩
  exact ⟨h1, rfl, h2, h3⟩

/-- C3 (confirmed): a continuation parked while a fetch is in flight with a
positive auction delay is resumed exactly once.  With distinct continuation
and timer identities and no continuation already exited: (1) requestBidsHook
parks at the back of the queue; (2) a settling fetch resumes every parked
continuation in queue order with the settled status, cancels their timers
and empties the queue; (3) a firing timer resumes exactly its continuation
with the fetch status forced to timeout and removes it (and only it) from
the queue; (4) after a timer fired first, a later fetch settlement resumes
only the remaining continuations, and after a fetch settled first, a later
timer fire changes no resumption: whichever trigger fires second is a no-op
for that continuation. -/
theorem C3_deferred_auction (s : CoordState) (h h0 : HookCfg) (auctionDelay : ℕ)
    (st : FetchStatus)
    (hcid : (s.delayed.map HookCfg.cid).Nodup)
    (htmr : (s.delayed.map HookCfg.timer).Nodup)
    (hex : ∀ a ∈ s.delayed, a.cid ∉ s.exited)
    (hmem : h ∈ s.delayed) :
    (s.fetching = true → 0 < auctionDelay →
      requestBidsHook auctionDelay h0 s = { s with delayed := s.delayed ++ [h0] })
    ∧ (fetchSettle st s).resumedLog = s.resumedLog ++ s.delayed.map (fun a => (a.cid, some st))
    ∧ (fetchSettle st s).delayed = []
    ∧ (fetchSettle st s).cancelledTimers = s.cancelledTimers ++ s.delayed.map HookCfg.timer
    ∧ (timerFire h s).resumedLog = s.resumedLog ++ [(h.cid, some FetchStatus.timeout)]
    ∧ (timerFire h s).delayed = s.delayed.filter (fun a => a.timer ≠ h.timer)
    ∧ h ∉ (timerFire h s).delayed
    ∧ (∀ a ∈ s.delayed, a ≠ h → a ∈ (timerFire h s).delayed)
    ∧ (fetchSettle st (timerFire h s)).resumedLog =
        (s.resumedLog ++ [(h.cid, some FetchStatus.timeout)]) ++
          (s.delayed.filter (fun a => a.timer ≠ h.timer)).map (fun a => (a.cid, some st))
    ∧ (timerFire h (fetchSettle st s)).resumedLog = (fetchSettle st s).resumedLog := by
  have hhex : h.cid ∉ s.exited := hex h hmem
  have hcinj : ∀ a ∈ s.delayed, ∀ b ∈ s.delayed, a.cid = b.cid → a = b :=
    fun a ha b hb hab => List.inj_on_of_nodup_map hcid ha hb hab
  have htinj : ∀ a ∈ s.delayed, ∀ b ∈ s.delayed, a.timer = b.timer → a = b :=
    fun a ha b hb hab => List.inj_on_of_nodup_map htmr ha hb hab
  have hsettle := resumeDelayedAuctions_spec { s with fetching := false, fetchStatus := some st }
    hcid hex
  have htf : timerFire h s =
      { delayed := s.delayed.filter (fun a => a.timer ≠ h.timer),
        exited := s.exited ++ [h.cid],
        cancelledTimers := s.cancelledTimers,
        fetching := s.fetching, fetchStatus := some FetchStatus.timeout,
        resumedLog := s.resumedLog ++ [(h.cid, some FetchStatus.timeout)] } := by
    simp [timerFire, continueAuction, hhex]
  refine ⟨?_, ?_, ?_, ?_, ?_, ?_, ?_, ?_, ?_, ?_⟩
  · intro hf hd
    simp [requestBidsHook, hf, hd]
  · exact hsettle.1
  · exact hsettle.2.1
  · exact hsettle.2.2.1
  · rw [htf]
  · rw [htf]
  · rw [htf]
    simp only [List.mem_filter, decide_eq_true_eq]
    rintro ⟨-, hne⟩
    exact hne rfl
  · intro a ha hne
    rw [htf]
    simp only [List.mem_filter, decide_eq_true_eq]
    exact ⟨ha, fun he => hne (htinj a ha h hmem he)⟩
  · have hnd2 : ((s.delayed.filter (fun a => a.timer ≠ h.timer)).map HookCfg.cid).Nodup :=
      ((s.delayed.filter_sublist).map HookCfg.cid).nodup hcid
    have hex2 : ∀ a ∈ s.delayed.filter (fun a => a.timer ≠ h.timer),
        a.cid ∉ s.exited ++ [h.cid] := by
      intro a ha
      have haf := List.mem_filter.mp ha
      have hamem := haf.1
      have hat : ¬ a.timer = h.timer := by simpa using haf.2
      simp only [List.mem_append, List.mem_singleton]
      rintro (hin | hin)
      · exact hex a hamem hin
      · exact hat (congrArg HookCfg.timer (hcinj a hamem h hmem hin))
    have hspec := resumeDelayedAuctions_spec
      { delayed := s.delayed.filter (fun a => a.timer ≠ h.timer),
        exited := s.exited ++ [h.cid],
        cancelledTimers := s.cancelledTimers,
        fetching := false, fetchStatus := some st,
        resumedLog := s.resumedLog ++ [(h.cid, some FetchStatus.timeout)] }
      hnd2 hex2
    have hfe : fetchSettle st (timerFire h s) = resumeDelayedAuctions
        { delayed := s.delayed.filter (fun a => a.timer ≠ h.timer),
          exited := s.exited ++ [h.cid],
          cancelledTimers := s.cancelledTimers,
          fetching := false, fetchStatus := some st,
          resumedLog := s.resumedLog ++ [(h.cid, some FetchStatus.timeout)] } := by
      rw [fetchSettle, htf]
    rw [hfe]
    exact hspec.1
  · have hexited : (fetchSettle st s).exited = s.exited ++ s.delayed.map HookCfg.cid :=
      hsettle.2.2.2
    have hin : h.cid ∈ (fetchSettle st s).exited := by
      rw [hexited]
      exact List.mem_append.mpr (Or.inr (List.mem_map_of_mem HookCfg.cid hmem))
    simp [timerFire, continueAuction, hin]

/-- C3 witness: in a state with two distinct parked continuations, after the
timer of the first fires, a later fetch settlement resumes only the second
continuation, and a timer firing after a settled fetch adds no
resumption. -/
theorem C3_deferred_auction_witness :
    (fetchSettle FetchStatus.success (timerFire { cid := 1, timer := 10 } parkedState)).resumedLog =
        (parkedState.resumedLog ++ [(({ cid := 1, timer := 10 } : HookCfg).cid,
            some FetchStatus.timeout)]) ++
          (parkedState.delayed.filter
            (fun a => a.timer ≠ ({ cid := 1, timer := 10 } : HookCfg).timer)).map
            (fun a => (a.cid, some FetchStatus.success))
    ∧ (timerFire { cid := 1, timer := 10 }
        (fetchSettle FetchStatus.success parkedState)).resumedLog =
        (fetchSettle FetchStatus.success parkedState).resumedLog :=
  ⟨(C3_deferred_auction parkedState { cid := 1, timer := 10 } { cid := 3, timer := 30 } 100
      FetchStatus.success (by decide) (by decide) (by decide)
      (by decide)).2.2.2.2.2.2.2.2.1,
   (C3_deferred_auction parkedState { cid := 1, timer := 10 } { cid := 3, timer := 30 } 100
      FetchStatus.success (by decide) (by decide) (by decide)
      (by decide)).2.2.2.2.2.2.2.2.2⟩

end PriceFloors
